import Mathlib

/-!  Shallow embedding of the core of a package-registry server: the in-memory
data store (`crates/server/src/datastore/memory.rs`), the core coordination
service (`crates/server/src/services/core.rs`) and the client-side publish
queue (`src/commands/publish.rs`).

Identifiers, envelopes, hashes and checkpoints are abstracted as natural
numbers; the external record validators (from `warg_protocol`, outside this
repository's sources) appear as function parameters of the operations that
invoke them.  Rust panics (`unwrap`, `assert!`, `unreachable!`, out-of-bounds
slicing) are modelled as `none` results; typed errors as `Except.error`. -/

abbrev LogId := Nat
abbrev RecordId := Nat
abbrev AnyHash := Nat
abbrev Env := Nat
abbrev Checkpoint := Nat

/-- Pointwise update of a finite partial map represented as a function
(models `HashMap::insert` / updating through `get_mut`). -/
def upd {β : Type} (f : Nat → Option β) (k : Nat) (v : β) : Nat → Option β :=
  fun x => if x = k then some v else f x

/-- Rust slice expression `l[a..b]`: panics (`none`) unless `a ≤ b ≤ l.length`;
otherwise yields the elements at positions `a`, ..., `b - 1`. -/
def rustSlice {α : Type} (l : List α) (a b : Nat) : Option (List α) :=
  if a ≤ b ∧ b ≤ l.length then some ((l.take b).drop a) else none

/-- `get_records_before_checkpoint` (textually identical in `memory.rs` and
`core.rs`): the number of `indices` entries at most `checkpoint_index`. -/
def get_records_before_checkpoint (indices : List Nat) (checkpoint_index : Nat) : Nat :=
  indices.countP (fun i => decide (i ≤ checkpoint_index))

/-! ## Data store (`datastore/memory.rs`) -/

/-- `Log<V, R>` of `memory.rs`; the validator state is abstract. -/
structure MLog where
  validator : Nat
  entries : List Env
  checkpoint_indices : List Nat
deriving DecidableEq

/-- `Log::default()`. -/
def defaultMLog : MLog := { validator := 0, entries := [], checkpoint_indices := [] }

/-- The `Record` struct of `memory.rs` (a validated record's position data). -/
structure MRecord where
  index : Nat
  checkpoint_index : Option Nat
deriving DecidableEq

/-- `PendingRecord` of `memory.rs`. -/
inductive PendingRecord where
  | operator (record : Option Env)
  | package (record : Option Env) (missing : Finset AnyHash)
deriving DecidableEq

/-- `RejectedRecord` of `memory.rs`. -/
inductive RejectedRecord where
  | operator (record : Env) (reason : String)
  | package (record : Env) (reason : String)
deriving DecidableEq

/-- `RecordStatus` of `memory.rs`. -/
inductive RecordStatus where
  | pending (p : PendingRecord)
  | rejected (r : RejectedRecord)
  | validated (r : MRecord)
deriving DecidableEq

/-- `DataStoreError` (variants used by `memory.rs`); a validator failure is
carried with its message string. -/
inductive DataStoreError where
  | logNotFound (id : LogId)
  | recordNotFound (id : RecordId)
  | recordNotPending (id : RecordId)
  | checkpointNotFound (h : AnyHash)
  | validation (msg : String)
deriving DecidableEq

/-- `LogLeaf { log_id, record_id }`. -/
structure LogLeaf where
  log_id : LogId
  record_id : RecordId
deriving DecidableEq

/-- The `State` behind the `MemoryDataStore` lock: operator logs, package
logs, the insertion-ordered checkpoint map (`IndexMap`, modelled as an
association list whose position is the index) and the record-status table. -/
structure MState where
  operators : LogId → Option MLog
  packages : LogId → Option MLog
  checkpoints : List (AnyHash × Checkpoint)
  records : LogId → Option (RecordId → Option RecordStatus)

/-- Status of record `r` in log `l` (`state.records.get(l).get(r)`). -/
def statusOf (st : MState) (l : LogId) (r : RecordId) : Option RecordStatus :=
  (st.records l).bind (fun inner => inner r)

/-- Whether a status is `Pending`. -/
def RecordStatus.isPend : RecordStatus → Bool
  | .pending _ => true
  | _ => false

/-- Abstract operator validator: `operator::Validator::validate`. -/
abbrev OValidate := Nat → Env → Except String Nat

/-- Abstract package validator: `package::Validator::validate`, returning the
new validator state and the content digests of the record's releases. -/
abbrev PValidate := Nat → Env → Except String (Nat × List AnyHash)

/-- `store_operator_record`: inserts a fresh `Pending` status; the
`assert!(prev.is_none())` on a duplicate key is a panic (`none`). -/
def store_operator_record (st : MState) (log_id : LogId) (record_id : RecordId)
    (record : Env) : Option (Except DataStoreError Unit × MState) :=
  let inner := (st.records log_id).getD (fun _ => none)
  match inner record_id with
  | some _ => none
  | none =>
    let inner' := upd inner record_id (.pending (.operator (some record)))
    some (.ok (), { st with records := upd st.records log_id inner' })

/-- `store_package_record`: as `store_operator_record`, also recording the
set of missing content digests. -/
def store_package_record (st : MState) (log_id : LogId) (_name : String)
    (record_id : RecordId) (record : Env) (missing : Finset AnyHash) :
    Option (Except DataStoreError Unit × MState) :=
  let inner := (st.records log_id).getD (fun _ => none)
  match inner record_id with
  | some _ => none
  | none =>
    let inner' := upd inner record_id (.pending (.package (some record) missing))
    some (.ok (), { st with records := upd st.records log_id inner' })

/-- `reject_operator_record`: only a `Pending` operator record transitions to
`Rejected`; any other status yields `RecordNotPending` without mutation. -/
def reject_operator_record (st : MState) (log_id : LogId) (record_id : RecordId)
    (reason : String) : Option (Except DataStoreError Unit × MState) :=
  match st.records log_id with
  | none => some (.error (.logNotFound log_id), st)
  | some inner =>
    match inner record_id with
    | none => some (.error (.recordNotFound record_id), st)
    | some (.pending (.operator rec)) =>
      match rec with
      | none => none
      | some record =>
        let inner' := upd inner record_id (.rejected (.operator record reason))
        some (.ok (), { st with records := upd st.records log_id inner' })
    | some _ => some (.error (.recordNotPending record_id), st)

/-- `reject_package_record`. -/
def reject_package_record (st : MState) (log_id : LogId) (record_id : RecordId)
    (reason : String) : Option (Except DataStoreError Unit × MState) :=
  match st.records log_id with
  | none => some (.error (.logNotFound log_id), st)
  | some inner =>
    match inner record_id with
    | none => some (.error (.recordNotFound record_id), st)
    | some (.pending (.package rec _)) =>
      match rec with
      | none => none
      | some record =>
        let inner' := upd inner record_id (.rejected (.package record reason))
        some (.ok (), { st with records := upd st.records log_id inner' })
    | some _ => some (.error (.recordNotPending record_id), st)

/-- `validate_operator_record`: on a pending operator record, runs the
validator; success appends the envelope to the log's entries and marks the
status `Validated` at that index with no checkpoint; failure marks the
status `Rejected` with the error string and returns the error.  The
`operators.entry(log_id).or_default()` insertion is performed in both
branches. -/
def validate_operator_record (ov : OValidate) (st : MState) (log_id : LogId)
    (record_id : RecordId) : Option (Except DataStoreError Unit × MState) :=
  match st.records log_id with
  | none => some (.error (.logNotFound log_id), st)
  | some inner =>
    match inner record_id with
    | none => some (.error (.recordNotFound record_id), st)
    | some (.pending (.operator rec)) =>
      match rec with
      | none => none
      | some record =>
        let log := (st.operators log_id).getD defaultMLog
        match ov log.validator record with
        | .ok v =>
          let log' : MLog := { log with validator := v, entries := log.entries ++ [record] }
          let inner' := upd inner record_id (.validated ⟨log.entries.length, none⟩)
          some (.ok (),
            { st with operators := upd st.operators log_id log',
                      records := upd st.records log_id inner' })
        | .error e =>
          let inner' := upd inner record_id (.rejected (.operator record e))
          some (.error (.validation e),
            { st with operators := upd st.operators log_id log,
                      records := upd st.records log_id inner' })
    | some _ => some (.error (.recordNotPending record_id), st)

/-- `validate_package_record` (same shape as the operator version, on the
package log table). -/
def validate_package_record (pv : PValidate) (st : MState) (log_id : LogId)
    (record_id : RecordId) : Option (Except DataStoreError Unit × MState) :=
  match st.records log_id with
  | none => some (.error (.logNotFound log_id), st)
  | some inner =>
    match inner record_id with
    | none => some (.error (.recordNotFound record_id), st)
    | some (.pending (.package rec _)) =>
      match rec with
      | none => none
      | some record =>
        let log := (st.packages log_id).getD defaultMLog
        match pv log.validator record with
        | .ok v =>
          let log' : MLog := { log with validator := v.1, entries := log.entries ++ [record] }
          let inner' := upd inner record_id (.validated ⟨log.entries.length, none⟩)
          some (.ok (),
            { st with packages := upd st.packages log_id log',
                      records := upd st.records log_id inner' })
        | .error e =>
          let inner' := upd inner record_id (.rejected (.package record e))
          some (.error (.validation e),
            { st with packages := upd st.packages log_id log,
                      records := upd st.records log_id inner' })
    | some _ => some (.error (.recordNotPending record_id), st)

/-- `is_content_missing`: pending operator records have no content; pending
package records report membership in the missing set. -/
def is_content_missing (st : MState) (log_id : LogId) (record_id : RecordId)
    (digest : AnyHash) : Option (Except DataStoreError Bool) :=
  match st.records log_id with
  | none => some (.error (.logNotFound log_id))
  | some inner =>
    match inner record_id with
    | none => some (.error (.recordNotFound record_id))
    | some (.pending (.operator _)) => some (.ok false)
    | some (.pending (.package _ missing)) => some (.ok (decide (digest ∈ missing)))
    | some _ => some (.error (.recordNotPending record_id))

/-- `set_content_present`: on a pending package record with a non-empty
missing set, removes the digest and returns whether the set became empty;
an already-empty missing set or a pending operator record returns `false`;
any non-pending status is `RecordNotPending`. -/
def set_content_present (st : MState) (log_id : LogId) (record_id : RecordId)
    (digest : AnyHash) : Option (Except DataStoreError Bool × MState) :=
  match st.records log_id with
  | none => some (.error (.logNotFound log_id), st)
  | some inner =>
    match inner record_id with
    | none => some (.error (.recordNotFound record_id), st)
    | some (.pending (.operator _)) => some (.ok false, st)
    | some (.pending (.package rec missing)) =>
      if missing = ∅ then some (.ok false, st)
      else
        let inner' := upd inner record_id (.pending (.package rec (missing.erase digest)))
        some (.ok (decide (missing.erase digest = ∅)),
          { st with records := upd st.records log_id inner' })
    | some _ => some (.error (.recordNotPending record_id), st)

/-- The branch of `store_checkpoint` that pushes the new checkpoint's index
onto the participant log's `checkpoint_indices` (operator log first, then
package log, else `unreachable!`). -/
def push_checkpoint_index (st : MState) (l : LogId) (index : Nat) : Option MState :=
  match st.operators l with
  | some log =>
    let log' : MLog := { log with checkpoint_indices := log.checkpoint_indices ++ [index] }
    some { st with operators := upd st.operators l log' }
  | none =>
    match st.packages l with
    | some log =>
      let log' : MLog := { log with checkpoint_indices := log.checkpoint_indices ++ [index] }
      some { st with packages := upd st.packages l log' }
    | none => none

/-- The participant loop of `store_checkpoint`: per leaf, push the checkpoint
index onto its log and set the validated record's `checkpoint_index`
(`unwrap`/`unreachable!` on a missing or non-validated record). -/
def store_checkpoint_leaves (st : MState) (index : Nat) :
    List LogLeaf → Option MState
  | [] => some st
  | leaf :: rest =>
    match push_checkpoint_index st leaf.log_id index with
    | none => none
    | some st1 =>
      match st1.records leaf.log_id with
      | none => none
      | some inner =>
        match inner leaf.record_id with
        | some (.validated r) =>
          let inner' := upd inner leaf.record_id (.validated ⟨r.index, some index⟩)
          store_checkpoint_leaves
            { st1 with records := upd st1.records leaf.log_id inner' } index rest
        | _ => none

/-- `store_checkpoint`: appends the checkpoint to the insertion-ordered map
(asserting the id is fresh) and applies the participant loop at the new
checkpoint's position. -/
def store_checkpoint (st : MState) (checkpoint_id : AnyHash) (checkpoint : Checkpoint)
    (participants : List LogLeaf) : Option (Except DataStoreError Unit × MState) :=
  if (st.checkpoints.findIdx? (fun kv => kv.1 == checkpoint_id)).isSome then none
  else
    match store_checkpoint_leaves
        { st with checkpoints := st.checkpoints ++ [(checkpoint_id, checkpoint)] }
        st.checkpoints.length participants with
    | none => none
    | some st' => some (.ok (), st')

/-- The `start` computation of `get_operator_records` / `get_package_records`:
`since` absent gives `0`; otherwise `state.records[log_id][since]` must be a
`Validated` record (indexing a missing key or the `unreachable!` arm
panics) and `start` is its log index plus one. -/
def mem_fetch_start (st : MState) (l : LogId) : Option RecordId → Option Nat
  | none => some 0
  | some s =>
    match statusOf st l s with
    | some (.validated r) => some (r.index + 1)
    | _ => none

/-- Common body of `get_operator_records` and `get_package_records` (the two
differ only in which log table they read). -/
def get_records_from (logs : LogId → Option MLog) (st : MState) (log_id : LogId)
    (root : AnyHash) (since : Option RecordId) (limit : Nat) :
    Option (Except DataStoreError (List Env)) :=
  match logs log_id with
  | none => some (.error (.logNotFound log_id))
  | some log =>
    match st.checkpoints.findIdx? (fun kv => kv.1 == root) with
    | none => some (.error (.checkpointNotFound root))
    | some checkpoint_index =>
      match mem_fetch_start st log_id since with
      | none => none
      | some start =>
        let e := get_records_before_checkpoint log.checkpoint_indices checkpoint_index
        match rustSlice log.entries start (min e (start + limit)) with
        | none => none
        | some out => some (.ok out)

/-- `get_operator_records`. -/
def get_operator_records (st : MState) (log_id : LogId) (root : AnyHash)
    (since : Option RecordId) (limit : Nat) : Option (Except DataStoreError (List Env)) :=
  get_records_from st.operators st log_id root since limit

/-- `get_package_records`. -/
def get_package_records (st : MState) (log_id : LogId) (root : AnyHash)
    (since : Option RecordId) (limit : Nat) : Option (Except DataStoreError (List Env)) :=
  get_records_from st.packages st log_id root since limit

/-- A mutating data-store operation (the full mutator vocabulary of
`memory.rs`), used to state lifecycle invariants over arbitrary calls. -/
inductive DSOp where
  | storeOperator (log_id : LogId) (record_id : RecordId) (record : Env)
  | rejectOperator (log_id : LogId) (record_id : RecordId) (reason : String)
  | validateOperator (log_id : LogId) (record_id : RecordId)
  | storePackage (log_id : LogId) (name : String) (record_id : RecordId)
      (record : Env) (missing : Finset AnyHash)
  | rejectPackage (log_id : LogId) (record_id : RecordId) (reason : String)
  | validatePackage (log_id : LogId) (record_id : RecordId)
  | setContent (log_id : LogId) (record_id : RecordId) (digest : AnyHash)
  | storeCp (checkpoint_id : AnyHash) (checkpoint : Checkpoint) (participants : List LogLeaf)

/-- The post-state of a data-store operation (`none` when the call panics). -/
def DSOp.post (ov : OValidate) (pv : PValidate) (st : MState) : DSOp → Option MState
  | .storeOperator l r e => (store_operator_record st l r e).map (fun p => p.2)
  | .rejectOperator l r reason => (reject_operator_record st l r reason).map (fun p => p.2)
  | .validateOperator l r => (validate_operator_record ov st l r).map (fun p => p.2)
  | .storePackage l n r e m => (store_package_record st l n r e m).map (fun p => p.2)
  | .rejectPackage l r reason => (reject_package_record st l r reason).map (fun p => p.2)
  | .validatePackage l r => (validate_package_record pv st l r).map (fun p => p.2)
  | .setContent l r d => (set_content_present st l r d).map (fun p => p.2)
  | .storeCp cid cp ps => (store_checkpoint st cid cp ps).map (fun p => p.2)

/-- A sequence of `set_content_present` calls on one record, collecting the
returned booleans (the sequence stops if a call errors or panics). -/
def run_content_calls (st : MState) (l : LogId) (r : RecordId) :
    List AnyHash → List Bool × MState
  | [] => ([], st)
  | d :: ds =>
    match set_content_present st l r d with
    | some (.ok b, st') =>
      let rest := run_content_calls st' l r ds
      (b :: rest.1, rest.2)
    | _ => ([], st)

/-- The missing set after presenting a list of digests in order. -/
def eraseAll (m : Finset AnyHash) : List AnyHash → Finset AnyHash
  | [] => m
  | d :: ds => eraseAll (m.erase d) ds

/-- The boolean results `set_content_present` produces along a digest list on
a pending package record with missing set `m`: a call returns `true` exactly
when the set was non-empty and its erase becomes empty. -/
def trueFlags (m : Finset AnyHash) : List AnyHash → List Bool
  | [] => []
  | d :: ds => ((!decide (m = ∅)) && decide (m.erase d = ∅)) :: trueFlags (m.erase d) ds

/-! ## Core service (`services/core.rs`) -/

/-- `RecordState` of `core.rs`. -/
inductive RecordState where
  | processing
  | published (checkpoint : Checkpoint)
  | rejected (reason : String)
deriving DecidableEq

/-- `CoreServiceError` of `core.rs`. -/
inductive CoreServiceError where
  | checkpointNotFound (h : AnyHash)
  | packageNameNotFound (name : String)
  | packageNotFound (id : LogId)
  | packageRecordNotFound (id : RecordId)
  | operatorRecordNotFound (id : RecordId)
deriving DecidableEq

/-- `PackageRecordInfo` of `core.rs` (content sources abstracted to their
digests, the only field `core.rs` reads). -/
structure PackageRecordInfo where
  record : Env
  content_sources : List AnyHash
  state : RecordState
deriving DecidableEq

/-- `PackageInfo` of `core.rs`. -/
structure PackageInfo where
  id : LogId
  name : String
  validator : Nat
  log : List Env
  checkpoint_indices : List Nat
  records : RecordId → Option PackageRecordInfo

/-- `OperatorInfo` of `core.rs` restricted to the fields its fetch path
reads. -/
structure OperatorInfo where
  validator : Nat
  log : List Env
  checkpoint_indices : List Nat

/-- The actor-owned part of the core `State`: the checkpoint sequence, the
reverse index from checkpoint hash to position, and the per-package states. -/
structure CoreState where
  checkpoints : List Checkpoint
  checkpoint_index : AnyHash → Option Nat
  package_states : LogId → Option PackageInfo

/-- `RecordId::package_record::<Sha256>` (or the operator analogue),
abstracted. -/
abbrev RecordIdOf := Env → RecordId

/-- `new_record` of `core.rs`: snapshot the validator, validate; on success
check every needed content digest against the provided sources — if one is
missing, respond `Rejected`, roll the validator back to the snapshot and do
not persist; otherwise send the leaf, append to the log and record
`Processing`; a validator error records `Rejected` without touching the log.
Returns (response sent, leaves sent to the transparency channel, new
package info). -/
def new_record (pv : PValidate) (recordIdOf : RecordIdOf) (info : PackageInfo)
    (record : Env) (content_sources : List AnyHash) :
    RecordState × List LogLeaf × PackageInfo :=
  let record_id := recordIdOf record
  let snapshot := info.validator
  match pv info.validator record with
  | .ok res =>
    match res.2.find? (fun d => !(content_sources.contains d)) with
    | some needed =>
      (.rejected ("Needed content " ++ toString needed ++ " but not provided"), [],
        { info with validator := snapshot })
    | none =>
      let state := RecordState.processing
      let ri : PackageRecordInfo := ⟨record, content_sources, state⟩
      (state, [⟨info.id, record_id⟩],
        { info with validator := res.1, log := info.log ++ [record],
                    records := upd info.records record_id ri })
  | .error err =>
    let state := RecordState.rejected err
    let ri : PackageRecordInfo := ⟨record, content_sources, state⟩
    (state, [], { info with records := upd info.records record_id ri })

/-- `mark_published` of `core.rs`: set the record's state to `Published` and
push the checkpoint index (`unwrap` on a missing record panics). -/
def mark_published (info : PackageInfo) (record_id : RecordId)
    (checkpoint : Checkpoint) (checkpoint_index : Nat) : Option PackageInfo :=
  match info.records record_id with
  | none => none
  | some ri =>
    let ri' : PackageRecordInfo := { ri with state := .published checkpoint }
    some { info with records := upd info.records record_id ri',
                     checkpoint_indices := info.checkpoint_indices ++ [checkpoint_index] }

/-- The leaf loop of `Message::NewCheckpoint`, applied in the listed order
(the order the actor spawns `mark_published` tasks; the source notes
publishes must be marked in order for correctness). -/
def new_checkpoint_leaves (st : CoreState) (checkpoint : Checkpoint)
    (checkpoint_index : Nat) : List LogLeaf → Option CoreState
  | [] => some st
  | leaf :: rest =>
    match st.package_states leaf.log_id with
    | none => none
    | some info =>
      match mark_published info leaf.record_id checkpoint checkpoint_index with
      | none => none
      | some info' =>
        new_checkpoint_leaves
          { st with package_states := upd st.package_states leaf.log_id info' }
          checkpoint checkpoint_index rest

/-- `Message::NewCheckpoint`: install the checkpoint at position equal to the
prior length of the checkpoint sequence, index it by its hash, and publish
every leaf. -/
def new_checkpoint (hashOf : Checkpoint → AnyHash) (st : CoreState)
    (checkpoint : Checkpoint) (leaves : List LogLeaf) : Option CoreState :=
  let checkpoint_index := st.checkpoints.length
  new_checkpoint_leaves
    { st with checkpoints := st.checkpoints ++ [checkpoint],
              checkpoint_index := upd st.checkpoint_index (hashOf checkpoint) checkpoint_index }
    checkpoint checkpoint_index leaves

/-- `get_package_record_index`: position of the record id among the log's
envelope ids, else `PackageRecordNotFound`. -/
def get_package_record_index (recordIdOf : RecordIdOf) (log : List Env)
    (hash : RecordId) : Except CoreServiceError Nat :=
  match log.findIdx? (fun e => recordIdOf e == hash) with
  | some i => .ok i
  | none => .error (.packageRecordNotFound hash)

/-- `get_operator_record_index`. -/
def get_operator_record_index (recordIdOf : RecordIdOf) (log : List Env)
    (hash : RecordId) : Except CoreServiceError Nat :=
  match log.findIdx? (fun e => recordIdOf e == hash) with
  | some i => .ok i
  | none => .error (.operatorRecordNotFound hash)

/-- `fetch_package_records` of `core.rs` (given the checkpoint index already
resolved by the actor): `start` from `since`, `end` from
`get_records_before_checkpoint`, then the slice `log[start..end]` (which
panics when `start > end`). -/
def fetch_package_records (recordIdOf : RecordIdOf) (info : PackageInfo)
    (since : Option RecordId) (checkpoint_index : Nat) :
    Option (Except CoreServiceError (List Env)) :=
  let start? : Except CoreServiceError Nat :=
    match since with
    | some h => (get_package_record_index recordIdOf info.log h).map (fun i => i + 1)
    | none => .ok 0
  match start? with
  | .error e => some (.error e)
  | .ok start =>
    match rustSlice info.log start
        (get_records_before_checkpoint info.checkpoint_indices checkpoint_index) with
    | none => none
    | some out => some (.ok out)

/-- `fetch_operator_records` of `core.rs`. -/
def fetch_operator_records (recordIdOf : RecordIdOf) (info : OperatorInfo)
    (since : Option RecordId) (checkpoint_index : Nat) :
    Option (Except CoreServiceError (List Env)) :=
  let start? : Except CoreServiceError Nat :=
    match since with
    | some h => (get_operator_record_index recordIdOf info.log h).map (fun i => i + 1)
    | none => .ok 0
  match start? with
  | .error e => some (.error e)
  | .ok start =>
    match rustSlice info.log start
        (get_records_before_checkpoint info.checkpoint_indices checkpoint_index) with
    | none => none
    | some out => some (.ok out)

/-! ## Client publish queue (`src/commands/publish.rs`) -/

/-- A client publish entry (`PublishEntry` of `warg_client` storage as used
by `publish.rs`). -/
inductive PublishEntry where
  | init
  | release (version : Nat) (content : AnyHash)
deriving DecidableEq

/-- `PublishInfo`: the pending publish batch in client storage. -/
structure PublishInfo where
  package : String
  head : Option RecordId
  entries : List PublishEntry
deriving DecidableEq

/-- Modelled from the spec: `PublishInfo::initializing` lives in
`warg_client` storage, which is not under the repository sources; per the
spec, "`Init` entries are rejected if the batch already initializes the
package", so a batch is initializing iff it already contains an `Init`
entry. -/
def PublishInfo.initializing (i : PublishInfo) : Bool :=
  i.entries.any (fun e => e == .init)

/-- `enqueue` of `publish.rs`: with a pending publish loaded, fail if it is
for another package, or if the new entry is `Init` and the batch already
initializes the package; otherwise append the entry and store the batch
back (`Ok(none)`).  With no pending publish, hand the entry back
(`Ok(some entry)`) leaving storage unchanged. -/
def enqueue (stored : Option PublishInfo) (name : String) (entry : PublishEntry) :
    Except String (Option PublishEntry × Option PublishInfo) :=
  match stored with
  | some info =>
    if info.package ≠ name then
      .error "there is already publish in progress for another package"
    else if entry == .init && info.initializing then
      .error "there is already a pending initializing for this package"
    else
      .ok (none, some { info with entries := info.entries ++ [entry] })
  | none => .ok (some entry, stored)

/-- `PublishStartCommand::exec`: fails when a pending publish already exists,
otherwise stores a fresh empty batch for the named package. -/
def publish_start (stored : Option PublishInfo) (name : String) :
    Except String (Option PublishInfo) :=
  match stored with
  | some _ => .error "a publish is already in progress"
  | none => .ok (some { package := name, head := none, entries := [] })

/-! ## Derived observations used in the statements -/

/-- Entries of the package log for `l` (empty for a missing log, matching
`entry(..).or_default()`). -/
def pkgEntriesOf (st : MState) (l : LogId) : List Env :=
  ((st.packages l).getD defaultMLog).entries

/-- Entries of the operator log for `l`. -/
def opEntriesOf (st : MState) (l : LogId) : List Env :=
  ((st.operators l).getD defaultMLog).entries

/-- The `checkpoint_indices` of the log for `l`, looked up the way
`store_checkpoint` resolves a leaf (operator table first). -/
def cindicesOf (st : MState) (l : LogId) : List Nat :=
  match st.operators l with
  | some log => log.checkpoint_indices
  | none =>
    match st.packages l with
    | some log => log.checkpoint_indices
    | none => []

/-- The `checkpoint_indices` of the core's package state for `l`. -/
def coreCindicesOf (st : CoreState) (l : LogId) : List Nat :=
  match st.package_states l with
  | some info => info.checkpoint_indices
  | none => []

/-! ## Concrete states used by witnesses and counterexamples -/

/-- Record table of a package log with eight validated records `1..8`:
records `1..5` published under checkpoint position `0`, `6..8` under `1`. -/
def exFetchInner : RecordId → Option RecordStatus := fun r =>
  if 1 ≤ r ∧ r ≤ 5 then some (.validated ⟨r - 1, some 0⟩)
  else if 6 ≤ r ∧ r ≤ 8 then some (.validated ⟨r - 1, some 1⟩)
  else none

/-- The package log holding envelopes `1..8` with their checkpoint indices. -/
def exFetchLog : MLog :=
  { validator := 0, entries := [1, 2, 3, 4, 5, 6, 7, 8],
    checkpoint_indices := [0, 0, 0, 0, 0, 1, 1, 1] }

/-- Data-store state for the fetch-window scenario: checkpoints `c1` (id 10)
and `c2` (id 11); package log `0` as in `exFetchLog`. -/
def exFetchSt : MState :=
  { operators := fun _ => none,
    packages := fun l => if l = 0 then some exFetchLog else none,
    checkpoints := [(10, 100), (11, 101)],
    records := fun l => if l = 0 then some exFetchInner else none }

/-- The same log viewed as an operator log, for the operator fetch path. -/
def exFetchStOp : MState :=
  { operators := fun l => if l = 0 then some exFetchLog else none,
    packages := fun _ => none,
    checkpoints := [(10, 100), (11, 101)],
    records := fun l => if l = 0 then some exFetchInner else none }

/-- Record table holding one rejected package record (id 5). -/
def exRejInner : RecordId → Option RecordStatus := fun r =>
  if r = 5 then some (.rejected (.package 5 "bad")) else none

/-- State with package log `0`, one checkpoint (id 10), and record 5
rejected. -/
def exRejSt : MState :=
  { operators := fun _ => none,
    packages := fun l => if l = 0 then some defaultMLog else none,
    checkpoints := [(10, 100)],
    records := fun l => if l = 0 then some exRejInner else none }

/-- Record table with a pending package record (id 1, envelope 9, nothing
missing) and a pending operator record (id 2, envelope 9). -/
def exPendInner : RecordId → Option RecordStatus := fun r =>
  if r = 1 then some (.pending (.package (some 9) ∅))
  else if r = 2 then some (.pending (.operator (some 9))) else none

/-- State with the two pending records of `exPendInner` in log 0. -/
def exPendSt : MState :=
  { operators := fun _ => none,
    packages := fun _ => none,
    checkpoints := [],
    records := fun l => if l = 0 then some exPendInner else none }

/-- Record table with a pending package record (id 1, envelope 9) missing
digests 5 and 6. -/
def exMissInner : RecordId → Option RecordStatus := fun r =>
  if r = 1 then some (.pending (.package (some 9) {5, 6})) else none

/-- State with the pending record of `exMissInner` in log 0. -/
def exMissSt : MState :=
  { operators := fun _ => none,
    packages := fun _ => none,
    checkpoints := [],
    records := fun l => if l = 0 then some exMissInner else none }

/-- Record table with two validated, not yet published records. -/
def exCkInner : RecordId → Option RecordStatus := fun r =>
  if r = 1 then some (.validated ⟨0, none⟩)
  else if r = 2 then some (.validated ⟨1, none⟩) else none

/-- State with package log 0 holding envelopes `[1, 2]`, both validated and
awaiting a checkpoint. -/
def exCkSt : MState :=
  { operators := fun _ => none,
    packages := fun l =>
      if l = 0 then some { validator := 0, entries := [1, 2], checkpoint_indices := [] }
      else none,
    checkpoints := [],
    records := fun l => if l = 0 then some exCkInner else none }

/-- A core package state holding the eight-record log of the fetch-window
scenario (record ids are the envelopes themselves). -/
def exCoreInfo : PackageInfo :=
  { id := 0, name := "p", validator := 0, log := [1, 2, 3, 4, 5, 6, 7, 8],
    checkpoint_indices := [0, 0, 0, 0, 0, 1, 1, 1], records := fun _ => none }

/-- The same data as a core operator state. -/
def exCoreOpInfo : OperatorInfo :=
  { validator := 0, log := [1, 2, 3, 4, 5, 6, 7, 8],
    checkpoint_indices := [0, 0, 0, 0, 0, 1, 1, 1] }

/-- A core package state with log `[1, 2]`, both records `Processing`. -/
def exCoreCkInfo : PackageInfo :=
  { id := 0, name := "p", validator := 0, log := [1, 2], checkpoint_indices := [],
    records := fun r => if r = 1 ∨ r = 2 then some ⟨r, [], .processing⟩ else none }

/-- A core state owning `exCoreCkInfo` as package 0, with no checkpoints. -/
def exCoreCkSt : CoreState :=
  { checkpoints := [],
    checkpoint_index := fun _ => none,
    package_states := fun l => if l = 0 then some exCoreCkInfo else none }

/-- A package validator accepting everything and releasing no content. -/
def pvOkEx : PValidate := fun v _ => .ok (v + 1, [])

/-- A package validator accepting everything and requiring content digest 3. -/
def pvNeedEx : PValidate := fun v _ => .ok (v, [3])

/-- A package validator rejecting everything with message "boom". -/
def pvErrEx : PValidate := fun _ _ => .error "boom"

/-- An operator validator accepting everything. -/
def ovOkEx : OValidate := fun v _ => .ok (v + 1)

/-- An operator validator rejecting everything with message "boom". -/
def ovErrEx : OValidate := fun _ _ => .error "boom"

/-! ## Helper lemmas -/

theorem upd_self {β : Type} (f : Nat → Option β) (k : Nat) (v : β) : upd f k v k = some v := by
  simp [upd]

theorem upd_ne {β : Type} (f : Nat → Option β) (k x : Nat) (v : β) (h : x ≠ k) :
    upd f k v x = f x := by
  simp [upd, h]

/-- Updating one record cell changes `statusOf` exactly at that cell.  The
`inner` map is the one `memory.rs` obtains from the record table (defaulting
to empty), so off-cell reads agree with the original state. -/
theorem statusOf_upd_shape (st st' : MState) (l0 r0 : Nat)
    (inner : RecordId → Option RecordStatus) (v : RecordStatus)
    (hinner : (st.records l0).getD (fun _ => none) = inner)
    (hst' : st'.records = upd st.records l0 (upd inner r0 v)) (l r : Nat) :
    statusOf st' l r = if l = l0 ∧ r = r0 then some v else statusOf st l r := by
  by_cases hl : l = l0
  · subst hl
    by_cases hr : r = r0
    · subst hr
      simp [statusOf, hst', upd]
    · simp only [statusOf, hst', upd_self, Option.some_bind, upd_ne _ _ _ _ hr, hr,
        and_false, if_false, ← hinner]
      cases h : st.records l <;> simp [h]
  · simp only [statusOf, hst', upd_ne _ _ _ _ hl, hl, false_and, if_false]

theorem rustSlice_eq {α : Type} (l : List α) (a b : Nat) (h1 : a ≤ b)
    (h2 : b ≤ l.length) : rustSlice l a b = some ((l.take b).drop a) := by
  simp [rustSlice, h1, h2]

theorem rustSlice_panic {α : Type} (l : List α) (a b : Nat) (h : b < a) :
    rustSlice l a b = none := by
  have hn : ¬(a ≤ b ∧ b ≤ l.length) := by omega
  simp [rustSlice, hn]

/-- Slicing to `min e (s + k)` is slicing to `e` and then capping at `k`. -/
theorem take_min_drop {α : Type} (l : List α) (s e k : Nat) (h : s ≤ e) :
    (l.take (min e (s + k))).drop s = ((l.take e).drop s).take k := by
  rw [List.drop_take, List.drop_take, List.take_take]
  congr 1
  omega

/-- The fetch window of `get_operator_records` / `get_package_records`: with
the root checkpoint at position `p` and the `since` lookup yielding `start`,
a well-bounded window returns `log[start .. end]` capped at `limit`. -/
theorem get_records_from_window (logs : LogId → Option MLog) (st : MState)
    (log_id : LogId) (root : AnyHash) (since : Option RecordId) (limit : Nat)
    (log : MLog) (p start : Nat)
    (hlog : logs log_id = some log)
    (hcp : st.checkpoints.findIdx? (fun kv => kv.1 == root) = some p)
    (hstart : mem_fetch_start st log_id since = some start)
    (hle : start ≤ get_records_before_checkpoint log.checkpoint_indices p)
    (hlen : get_records_before_checkpoint log.checkpoint_indices p ≤ log.entries.length) :
    get_records_from logs st log_id root since limit =
      some (.ok (((log.entries.take
        (get_records_before_checkpoint log.checkpoint_indices p)).drop start).take limit)) := by
  have hs := rustSlice_eq log.entries start
    (min (get_records_before_checkpoint log.checkpoint_indices p) (start + limit))
    (by omega) (by omega)
  simp only [get_records_from, hlog, hcp, hstart, hs]
  rw [take_min_drop _ _ _ _ hle]

/-- The fetch of `get_operator_records` / `get_package_records` panics when
`start` exceeds the window's end. -/
theorem get_records_from_panic (logs : LogId → Option MLog) (st : MState)
    (log_id : LogId) (root : AnyHash) (since : Option RecordId) (limit : Nat)
    (log : MLog) (p start : Nat)
    (hlog : logs log_id = some log)
    (hcp : st.checkpoints.findIdx? (fun kv => kv.1 == root) = some p)
    (hstart : mem_fetch_start st log_id since = some start)
    (hgt : get_records_before_checkpoint log.checkpoint_indices p < start) :
    get_records_from logs st log_id root since limit = none := by
  have hs : rustSlice log.entries start
      (min (get_records_before_checkpoint log.checkpoint_indices p) (start + limit)) = none :=
    rustSlice_panic _ _ _ (by omega)
  simp only [get_records_from, hlog, hcp, hstart, hs]

/-- With `since` resolved to index `i`, a well-bounded core package fetch
returns `log[i + 1 .. end]`. -/
theorem fetch_package_records_window (recordIdOf : RecordIdOf) (info : PackageInfo)
    (since : Option RecordId) (p start : Nat)
    (hstart : (since = none ∧ start = 0) ∨
      ∃ h i, since = some h ∧ info.log.findIdx? (fun e => recordIdOf e == h) = some i ∧
        start = i + 1)
    (hle : start ≤ get_records_before_checkpoint info.checkpoint_indices p)
    (hlen : get_records_before_checkpoint info.checkpoint_indices p ≤ info.log.length) :
    fetch_package_records recordIdOf info since p =
      some (.ok ((info.log.take
        (get_records_before_checkpoint info.checkpoint_indices p)).drop start)) := by
  rcases hstart with ⟨hnone, hstart⟩ | ⟨h, i, hsome, hfind, hstart⟩
  · subst hnone
    subst hstart
    have hs := rustSlice_eq info.log 0
      (get_records_before_checkpoint info.checkpoint_indices p) (by omega) (by omega)
    simp only [fetch_package_records, hs]
  · subst hsome
    subst hstart
    have hs := rustSlice_eq info.log (i + 1)
      (get_records_before_checkpoint info.checkpoint_indices p) (by omega) (by omega)
    simp only [fetch_package_records, get_package_record_index, hfind, Except.map, hs]

/-- The core package fetch panics when `start` exceeds the window's end. -/
theorem fetch_package_records_panic (recordIdOf : RecordIdOf) (info : PackageInfo)
    (h : RecordId) (p i : Nat)
    (hfind : info.log.findIdx? (fun e => recordIdOf e == h) = some i)
    (hgt : get_records_before_checkpoint info.checkpoint_indices p < i + 1) :
    fetch_package_records recordIdOf info (some h) p = none := by
  have hs : rustSlice info.log (i + 1)
      (get_records_before_checkpoint info.checkpoint_indices p) = none :=
    rustSlice_panic _ _ _ (by omega)
  simp only [fetch_package_records, get_package_record_index, hfind, Except.map, hs]

/-- With `since` resolved to index `i`, a well-bounded core operator fetch
returns `log[i + 1 .. end]`. -/
theorem fetch_operator_records_window (recordIdOf : RecordIdOf) (info : OperatorInfo)
    (since : Option RecordId) (p start : Nat)
    (hstart : (since = none ∧ start = 0) ∨
      ∃ h i, since = some h ∧ info.log.findIdx? (fun e => recordIdOf e == h) = some i ∧
        start = i + 1)
    (hle : start ≤ get_records_before_checkpoint info.checkpoint_indices p)
    (hlen : get_records_before_checkpoint info.checkpoint_indices p ≤ info.log.length) :
    fetch_operator_records recordIdOf info since p =
      some (.ok ((info.log.take
        (get_records_before_checkpoint info.checkpoint_indices p)).drop start)) := by
  rcases hstart with ⟨hnone, hstart⟩ | ⟨h, i, hsome, hfind, hstart⟩
  · subst hnone
    subst hstart
    have hs := rustSlice_eq info.log 0
      (get_records_before_checkpoint info.checkpoint_indices p) (by omega) (by omega)
    simp only [fetch_operator_records, hs]
  · subst hsome
    subst hstart
    have hs := rustSlice_eq info.log (i + 1)
      (get_records_before_checkpoint info.checkpoint_indices p) (by omega) (by omega)
    simp only [fetch_operator_records, get_operator_record_index, hfind, Except.map, hs]

/-- The core operator fetch panics when `start` exceeds the window's end. -/
theorem fetch_operator_records_panic (recordIdOf : RecordIdOf) (info : OperatorInfo)
    (h : RecordId) (p i : Nat)
    (hfind : info.log.findIdx? (fun e => recordIdOf e == h) = some i)
    (hgt : get_records_before_checkpoint info.checkpoint_indices p < i + 1) :
    fetch_operator_records recordIdOf info (some h) p = none := by
  have hs : rustSlice info.log (i + 1)
      (get_records_before_checkpoint info.checkpoint_indices p) = none :=
    rustSlice_panic _ _ _ (by omega)
  simp only [fetch_operator_records, get_operator_record_index, hfind, Except.map, hs]

/-! ## Claim C1 -/

/-- Claim C1: for every log, checkpoint root at position `p`, and optional
`since` record validated at log index `i`, the record fetch
(`get_package_records` / `get_operator_records` in the data store,
`fetch_package_records` / `fetch_operator_records` in the core) returns the
consecutive log entries `log[i + 1 .. end]` in insertion order (from index 0
when `since` is absent), where `end` counts the `checkpoint_indices` entries
at most `p`, additionally capped at the caller-provided `limit` where a
limit parameter exists. -/
theorem c1_fetch_window :
    (∀ (st : MState) (log_id root : Nat) (since : Option RecordId) (limit : Nat)
        (log : MLog) (p start : Nat),
      st.packages log_id = some log →
      st.checkpoints.findIdx? (fun kv => kv.1 == root) = some p →
      mem_fetch_start st log_id since = some start →
      start ≤ get_records_before_checkpoint log.checkpoint_indices p →
      get_records_before_checkpoint log.checkpoint_indices p ≤ log.entries.length →
      get_package_records st log_id root since limit =
        some (.ok (((log.entries.take
          (get_records_before_checkpoint log.checkpoint_indices p)).drop start).take limit))) ∧
    (∀ (st : MState) (log_id root : Nat) (since : Option RecordId) (limit : Nat)
        (log : MLog) (p start : Nat),
      st.operators log_id = some log →
      st.checkpoints.findIdx? (fun kv => kv.1 == root) = some p →
      mem_fetch_start st log_id since = some start →
      start ≤ get_records_before_checkpoint log.checkpoint_indices p →
      get_records_before_checkpoint log.checkpoint_indices p ≤ log.entries.length →
      get_operator_records st log_id root since limit =
        some (.ok (((log.entries.take
          (get_records_before_checkpoint log.checkpoint_indices p)).drop start).take limit))) ∧
    (∀ (recordIdOf : RecordIdOf) (info : PackageInfo) (since : Option RecordId)
        (p start : Nat),
      ((since = none ∧ start = 0) ∨
        ∃ h i, since = some h ∧
          info.log.findIdx? (fun e => recordIdOf e == h) = some i ∧ start = i + 1) →
      start ≤ get_records_before_checkpoint info.checkpoint_indices p →
      get_records_before_checkpoint info.checkpoint_indices p ≤ info.log.length →
      fetch_package_records recordIdOf info since p =
        some (.ok ((info.log.take
          (get_records_before_checkpoint info.checkpoint_indices p)).drop start))) ∧
    (∀ (recordIdOf : RecordIdOf) (info : OperatorInfo) (since : Option RecordId)
        (p start : Nat),
      ((since = none ∧ start = 0) ∨
        ∃ h i, since = some h ∧
          info.log.findIdx? (fun e => recordIdOf e == h) = some i ∧ start = i + 1) →
      start ≤ get_records_before_checkpoint info.checkpoint_indices p →
      get_records_before_checkpoint info.checkpoint_indices p ≤ info.log.length →
      fetch_operator_records recordIdOf info since p =
        some (.ok ((info.log.take
          (get_records_before_checkpoint info.checkpoint_indices p)).drop start))) := by
  refine ⟨?_, ?_, ?_, ?_⟩
  · intro st log_id root since limit log p start hlog hcp hstart hle hlen
    exact get_records_from_window st.packages st log_id root since limit log p start
      hlog hcp hstart hle hlen
  · intro st log_id root since limit log p start hlog hcp hstart hle hlen
    exact get_records_from_window st.operators st log_id root since limit log p start
      hlog hcp hstart hle hlen
  · intro recordIdOf info since p start hstart hle hlen
    exact fetch_package_records_window recordIdOf info since p start hstart hle hlen
  · intro recordIdOf info since p start hstart hle hlen
    exact fetch_operator_records_window recordIdOf info since p start hstart hle hlen

/-- Witness for C1: the spec's fetch-window scenario.  Records `r1..r5` are
published under checkpoint `c1` (id 10), `r6..r8` under `c2`;
`get_package_records(log, c1, Some(r2), 10)` returns `[r3, r4, r5]`, and so
do the operator and core fetch paths on the same data. -/
theorem c1_fetch_window_witness :
    get_package_records exFetchSt 0 10 (some 2) 10 = some (.ok [3, 4, 5]) ∧
    get_operator_records exFetchStOp 0 10 (some 2) 10 = some (.ok [3, 4, 5]) ∧
    fetch_package_records (fun e => e) exCoreInfo (some 2) 0 = some (.ok [3, 4, 5]) ∧
    fetch_operator_records (fun e => e) exCoreOpInfo (some 2) 0 = some (.ok [3, 4, 5]) := by
  refine ⟨?_, ?_, ?_, ?_⟩
  · exact (c1_fetch_window.1 exFetchSt 0 10 (some 2) 10 exFetchLog 0 2
      (by rfl) (by rfl) (by rfl) (by decide) (by decide)).trans (by rfl)
  · exact (c1_fetch_window.2.1 exFetchStOp 0 10 (some 2) 10 exFetchLog 0 2
      (by rfl) (by rfl) (by rfl) (by decide) (by decide)).trans (by rfl)
  · exact (c1_fetch_window.2.2.1 (fun e => e) exCoreInfo (some 2) 0 2
      (Or.inr ⟨2, 1, rfl, by decide, rfl⟩) (by decide) (by decide)).trans (by rfl)
  · exact (c1_fetch_window.2.2.2 (fun e => e) exCoreOpInfo (some 2) 0 2
      (Or.inr ⟨2, 1, rfl, by decide, rfl⟩) (by decide) (by decide)).trans (by rfl)

/-! ## Claim C10 -/

/-- Claim C10: in both fetch implementations, when `since` names a validated
record whose log index plus one exceeds the number of entries covered by the
root checkpoint, the range slice `log[start .. end]` is taken with
`start > end`, so the operation panics (`none`) instead of returning an
empty result or a typed error. -/
theorem c10_fetch_slice_panic :
    (∀ (st : MState) (log_id root : Nat) (since : Option RecordId) (limit : Nat)
        (log : MLog) (p start : Nat),
      st.packages log_id = some log →
      st.checkpoints.findIdx? (fun kv => kv.1 == root) = some p →
      mem_fetch_start st log_id since = some start →
      get_records_before_checkpoint log.checkpoint_indices p < start →
      get_package_records st log_id root since limit = none) ∧
    (∀ (st : MState) (log_id root : Nat) (since : Option RecordId) (limit : Nat)
        (log : MLog) (p start : Nat),
      st.operators log_id = some log →
      st.checkpoints.findIdx? (fun kv => kv.1 == root) = some p →
      mem_fetch_start st log_id since = some start →
      get_records_before_checkpoint log.checkpoint_indices p < start →
      get_operator_records st log_id root since limit = none) ∧
    (∀ (recordIdOf : RecordIdOf) (info : PackageInfo) (h : RecordId) (p i : Nat),
      info.log.findIdx? (fun e => recordIdOf e == h) = some i →
      get_records_before_checkpoint info.checkpoint_indices p < i + 1 →
      fetch_package_records recordIdOf info (some h) p = none) ∧
    (∀ (recordIdOf : RecordIdOf) (info : OperatorInfo) (h : RecordId) (p i : Nat),
      info.log.findIdx? (fun e => recordIdOf e == h) = some i →
      get_records_before_checkpoint info.checkpoint_indices p < i + 1 →
      fetch_operator_records recordIdOf info (some h) p = none) := by
  refine ⟨?_, ?_, ?_, ?_⟩
  · intro st log_id root since limit log p start hlog hcp hstart hgt
    exact get_records_from_panic st.packages st log_id root since limit log p start
      hlog hcp hstart hgt
  · intro st log_id root since limit log p start hlog hcp hstart hgt
    exact get_records_from_panic st.operators st log_id root since limit log p start
      hlog hcp hstart hgt
  · intro recordIdOf info h p i hfind hgt
    exact fetch_package_records_panic recordIdOf info h p i hfind hgt
  · intro recordIdOf info h p i hfind hgt
    exact fetch_operator_records_panic recordIdOf info h p i hfind hgt

/-- Witness for C10: in the fetch-window scenario, asking for records since
`r7` (validated at index 6, covered only by checkpoint `c2`) relative to
root `c1` (position 0, covering five records) panics in all four fetch
paths. -/
theorem c10_fetch_slice_panic_witness :
    get_package_records exFetchSt 0 10 (some 7) 10 = none ∧
    get_operator_records exFetchStOp 0 10 (some 7) 10 = none ∧
    fetch_package_records (fun e => e) exCoreInfo (some 7) 0 = none ∧
    fetch_operator_records (fun e => e) exCoreOpInfo (some 7) 0 = none := by
  refine ⟨?_, ?_, ?_, ?_⟩
  · exact c10_fetch_slice_panic.1 exFetchSt 0 10 (some 7) 10 exFetchLog 0 7
      (by rfl) (by rfl) (by rfl) (by decide)
  · exact c10_fetch_slice_panic.2.1 exFetchStOp 0 10 (some 7) 10 exFetchLog 0 7
      (by rfl) (by rfl) (by rfl) (by decide)
  · exact c10_fetch_slice_panic.2.2.1 (fun e => e) exCoreInfo 7 0 6 (by decide) (by decide)
  · exact c10_fetch_slice_panic.2.2.2 (fun e => e) exCoreOpInfo 7 0 6 (by decide) (by decide)

/-! ## Claim C6 -/

/-- Counterexample to claim C6 as stated: in `exRejSt` the package log and
the root checkpoint exist, and record 5 has status `Rejected`; the claim
asserts `get_package_records` fails with `RecordNotFound` and does not
panic, but the source hits the `unreachable!()` arm of the `since` match, a
panic (modelled as `none`), and in particular returns no typed error. -/
theorem c6_rejected_since_counterexample :
    get_package_records exRejSt 0 10 (some 5) 10 = none ∧
    ∀ e : DataStoreError, get_package_records exRejSt 0 10 (some 5) 10 ≠ some (.error e) := by
  constructor
  · rfl
  · intro e h
    rw [show get_package_records exRejSt 0 10 (some 5) 10 = none from rfl] at h
    cases h

/-- Claim C6 (amended): in the core service, a fetch whose `since` id does
not occur among the log's record ids — in particular the id of a rejected
record, which `new_record` never appends to the log — fails with the
record-not-found error and returns no entries; the in-memory data store's
`get_package_records` / `get_operator_records` instead panic
(`unreachable!`) when `since` refers to a `Rejected` record. -/
theorem c6_rejected_since :
    (∀ (recordIdOf : RecordIdOf) (info : PackageInfo) (h : RecordId) (p : Nat),
      info.log.findIdx? (fun e => recordIdOf e == h) = none →
      fetch_package_records recordIdOf info (some h) p =
        some (.error (.packageRecordNotFound h))) ∧
    (∀ (recordIdOf : RecordIdOf) (info : OperatorInfo) (h : RecordId) (p : Nat),
      info.log.findIdx? (fun e => recordIdOf e == h) = none →
      fetch_operator_records recordIdOf info (some h) p =
        some (.error (.operatorRecordNotFound h))) ∧
    (∀ (pv : PValidate) (recordIdOf : RecordIdOf) (info : PackageInfo) (record : Env)
        (cs : List AnyHash) (err : String),
      pv info.validator record = .error err →
      ((new_record pv recordIdOf info record cs).2.2.log = info.log ∧
        (new_record pv recordIdOf info record cs).1 = .rejected err)) ∧
    (∀ (st : MState) (log_id root s : Nat) (rr : RejectedRecord) (limit : Nat)
        (log : MLog) (p : Nat),
      st.packages log_id = some log →
      st.checkpoints.findIdx? (fun kv => kv.1 == root) = some p →
      statusOf st log_id s = some (.rejected rr) →
      get_package_records st log_id root (some s) limit = none) ∧
    (∀ (st : MState) (log_id root s : Nat) (rr : RejectedRecord) (limit : Nat)
        (log : MLog) (p : Nat),
      st.operators log_id = some log →
      st.checkpoints.findIdx? (fun kv => kv.1 == root) = some p →
      statusOf st log_id s = some (.rejected rr) →
      get_operator_records st log_id root (some s) limit = none) := by
  refine ⟨?_, ?_, ?_, ?_, ?_⟩
  · intro recordIdOf info h p hfind
    simp only [fetch_package_records, get_package_record_index, hfind, Except.map]
  · intro recordIdOf info h p hfind
    simp only [fetch_operator_records, get_operator_record_index, hfind, Except.map]
  · intro pv recordIdOf info record cs err herr
    constructor
    · simp only [new_record, herr]
    · simp only [new_record, herr]
  · intro st log_id root s rr limit log p hlog hcp hstat
    have hstart : mem_fetch_start st log_id (some s) = none := by
      simp only [mem_fetch_start, hstat]
    simp only [get_package_records, get_records_from, hlog, hcp, hstart]
  · intro st log_id root s rr limit log p hlog hcp hstat
    have hstart : mem_fetch_start st log_id (some s) = none := by
      simp only [mem_fetch_start, hstat]
    simp only [get_operator_records, get_records_from, hlog, hcp, hstart]

/-- Witness for C6 (amended): the core fetch on the eight-record log with a
`since` id not present in the log errors with the record-not-found kinds,
and the memory fetches on `exRejSt` (record 5 rejected) panic. -/
theorem c6_rejected_since_witness :
    fetch_package_records (fun e => e) exCoreInfo (some 99) 0 =
      some (.error (.packageRecordNotFound 99)) ∧
    fetch_operator_records (fun e => e) exCoreOpInfo (some 99) 0 =
      some (.error (.operatorRecordNotFound 99)) ∧
    (new_record pvErrEx (fun e => e) exCoreInfo 7 []).2.2.log = exCoreInfo.log ∧
    get_package_records exRejSt 0 10 (some 5) 10 = none := by
  refine ⟨?_, ?_, ?_, ?_⟩
  · exact c6_rejected_since.1 (fun e => e) exCoreInfo 99 0 (by decide)
  · exact c6_rejected_since.2.1 (fun e => e) exCoreOpInfo 99 0 (by decide)
  · exact (c6_rejected_since.2.2.1 pvErrEx (fun e => e) exCoreInfo 7 [] "boom" (by rfl)).1
  · exact c6_rejected_since.2.2.2.1 exRejSt 0 10 5 (.package 5 "bad") 10 defaultMLog 0
      (by rfl) (by rfl) (by rfl)

/-! ## Claim C8 -/

/-- Claim C8: calling `store_operator_record` or `store_package_record` a
second time with the same `(log_id, record_id)` pair fails rather than
silently succeeding — the duplicate store panics on `assert!(prev.is_none())`
and in particular does not return `Ok`. -/
theorem c8_duplicate_store_fails :
    ∀ (st : MState) (log_id record_id : Nat) (rec : Env) (name : String)
      (missing : Finset AnyHash) (s : RecordStatus),
      statusOf st log_id record_id = some s →
      store_operator_record st log_id record_id rec = none ∧
      store_package_record st log_id name record_id rec missing = none := by
  intro st log_id record_id rec name missing s hstat
  unfold statusOf at hstat
  cases hrec : st.records log_id with
  | none => rw [hrec] at hstat; cases hstat
  | some inner =>
    rw [hrec] at hstat
    simp only [Option.some_bind] at hstat
    constructor
    · simp only [store_operator_record, hrec, Option.getD, hstat]
    · simp only [store_package_record, hrec, Option.getD, hstat]

/-- Witness for C8: storing again under the id of the already-stored (and
rejected) record 5 panics in both store operations. -/
theorem c8_duplicate_store_fails_witness :
    store_operator_record exRejSt 0 5 9 = none ∧
    store_package_record exRejSt 0 "n" 5 9 ∅ = none :=
  c8_duplicate_store_fails exRejSt 0 5 9 "n" ∅ (.rejected (.package 5 "bad")) (by rfl)

/-! ## Claim C3 -/

/-- Claim C3: `validate_package_record` (and `validate_operator_record`)
applied to a pending record is transactional: either the validator accepts
the record, the envelope is appended to the log's entries at index equal to
the prior entry count, and the status becomes `Validated` with that index
and no checkpoint; or the validator fails, the error is returned, the
status becomes `Rejected` with the error's string as the reason, and the
log's entries are unchanged. -/
theorem c3_validate_transactional :
    (∀ (pv : PValidate) (st : MState) (l r : Nat)
        (inner : RecordId → Option RecordStatus) (rec : Env) (m : Finset AnyHash)
        (v : Nat × List AnyHash),
      st.records l = some inner →
      inner r = some (.pending (.package (some rec) m)) →
      pv ((st.packages l).getD defaultMLog).validator rec = .ok v →
      ∃ st', validate_package_record pv st l r = some (.ok (), st') ∧
        pkgEntriesOf st' l = pkgEntriesOf st l ++ [rec] ∧
        statusOf st' l r = some (.validated ⟨(pkgEntriesOf st l).length, none⟩)) ∧
    (∀ (pv : PValidate) (st : MState) (l r : Nat)
        (inner : RecordId → Option RecordStatus) (rec : Env) (m : Finset AnyHash)
        (e : String),
      st.records l = some inner →
      inner r = some (.pending (.package (some rec) m)) →
      pv ((st.packages l).getD defaultMLog).validator rec = .error e →
      ∃ st', validate_package_record pv st l r = some (.error (.validation e), st') ∧
        pkgEntriesOf st' l = pkgEntriesOf st l ∧
        statusOf st' l r = some (.rejected (.package rec e))) ∧
    (∀ (ov : OValidate) (st : MState) (l r : Nat)
        (inner : RecordId → Option RecordStatus) (rec : Env) (v : Nat),
      st.records l = some inner →
      inner r = some (.pending (.operator (some rec))) →
      ov ((st.operators l).getD defaultMLog).validator rec = .ok v →
      ∃ st', validate_operator_record ov st l r = some (.ok (), st') ∧
        opEntriesOf st' l = opEntriesOf st l ++ [rec] ∧
        statusOf st' l r = some (.validated ⟨(opEntriesOf st l).length, none⟩)) ∧
    (∀ (ov : OValidate) (st : MState) (l r : Nat)
        (inner : RecordId → Option RecordStatus) (rec : Env) (e : String),
      st.records l = some inner →
      inner r = some (.pending (.operator (some rec))) →
      ov ((st.operators l).getD defaultMLog).validator rec = .error e →
      ∃ st', validate_operator_record ov st l r = some (.error (.validation e), st') ∧
        opEntriesOf st' l = opEntriesOf st l ∧
        statusOf st' l r = some (.rejected (.operator rec e))) := by
  refine ⟨?_, ?_, ?_, ?_⟩
  · intro pv st l r inner rec m v hrec hinner hv
    simp only [validate_package_record, hrec, hinner, hv]
    refine ⟨_, rfl, ?_, ?_⟩
    · simp [pkgEntriesOf, upd_self]
    · simp [statusOf, upd_self, upd, pkgEntriesOf]
  · intro pv st l r inner rec m e hrec hinner hv
    simp only [validate_package_record, hrec, hinner, hv]
    refine ⟨_, rfl, ?_, ?_⟩
    · simp [pkgEntriesOf, upd_self]
    · simp [statusOf, upd_self, upd]
  · intro ov st l r inner rec v hrec hinner hv
    simp only [validate_operator_record, hrec, hinner, hv]
    refine ⟨_, rfl, ?_, ?_⟩
    · simp [opEntriesOf, upd_self]
    · simp [statusOf, upd_self, upd, opEntriesOf]
  · intro ov st l r inner rec e hrec hinner hv
    simp only [validate_operator_record, hrec, hinner, hv]
    refine ⟨_, rfl, ?_, ?_⟩
    · simp [opEntriesOf, upd_self]
    · simp [statusOf, upd_self, upd]

/-- Witness for C3: in `exPendSt` (pending package record 1, pending
operator record 2, both with envelope 9 and empty logs), an accepting
validator appends the envelope at index 0 and validates, a failing
validator rejects with its message and leaves the entries empty. -/
theorem c3_validate_transactional_witness :
    (∃ st', validate_package_record pvOkEx exPendSt 0 1 = some (.ok (), st') ∧
      pkgEntriesOf st' 0 = pkgEntriesOf exPendSt 0 ++ [9] ∧
      statusOf st' 0 1 = some (.validated ⟨(pkgEntriesOf exPendSt 0).length, none⟩)) ∧
    (∃ st', validate_package_record pvErrEx exPendSt 0 1 =
        some (.error (.validation "boom"), st') ∧
      pkgEntriesOf st' 0 = pkgEntriesOf exPendSt 0 ∧
      statusOf st' 0 1 = some (.rejected (.package 9 "boom"))) ∧
    (∃ st', validate_operator_record ovOkEx exPendSt 0 2 = some (.ok (), st') ∧
      opEntriesOf st' 0 = opEntriesOf exPendSt 0 ++ [9] ∧
      statusOf st' 0 2 = some (.validated ⟨(opEntriesOf exPendSt 0).length, none⟩)) ∧
    (∃ st', validate_operator_record ovErrEx exPendSt 0 2 =
        some (.error (.validation "boom"), st') ∧
      opEntriesOf st' 0 = opEntriesOf exPendSt 0 ∧
      statusOf st' 0 2 = some (.rejected (.operator 9 "boom"))) := by
  refine ⟨?_, ?_, ?_, ?_⟩
  · exact c3_validate_transactional.1 pvOkEx exPendSt 0 1 exPendInner 9 ∅ (1, [])
      (by rfl) (by rfl) (by rfl)
  · exact c3_validate_transactional.2.1 pvErrEx exPendSt 0 1 exPendInner 9 ∅ "boom"
      (by rfl) (by rfl) (by rfl)
  · exact c3_validate_transactional.2.2.1 ovOkEx exPendSt 0 2 exPendInner 9 1
      (by rfl) (by rfl) (by rfl)
  · exact c3_validate_transactional.2.2.2 ovErrEx exPendSt 0 2 exPendInner 9 "boom"
      (by rfl) (by rfl) (by rfl)

/-! ## Claim C7 -/

/-- Claim C7: in the core submission pipeline, when the validator accepts a
record but some needed content digest is not among the digests of the
provided content sources, `new_record` responds `Rejected` with a reason,
rolls the validator back to the snapshot taken before validation, and does
not persist the record: the package info (validator, log and record table)
is exactly its pre-submission value and no leaf is sent to the transparency
builder. -/
theorem c7_missing_content_rollback :
    ∀ (pv : PValidate) (recordIdOf : RecordIdOf) (info : PackageInfo) (record : Env)
      (cs : List AnyHash) (v : Nat × List AnyHash) (needed : AnyHash),
      pv info.validator record = .ok v →
      v.2.find? (fun d => !(cs.contains d)) = some needed →
      new_record pv recordIdOf info record cs =
        (.rejected ("Needed content " ++ toString needed ++ " but not provided"),
          [], info) := by
  intro pv recordIdOf info record cs v needed hv hfind
  simp only [new_record, hv, hfind]

/-- Witness for C7: a validator that needs content digest 3 with no provided
sources makes `new_record` respond `Rejected`, send no leaf, and leave the
package info untouched. -/
theorem c7_missing_content_rollback_witness :
    new_record pvNeedEx (fun e => e) exCoreInfo 7 [] =
      (.rejected ("Needed content " ++ toString (3 : Nat) ++ " but not provided"),
        [], exCoreInfo) :=
  c7_missing_content_rollback pvNeedEx (fun e => e) exCoreInfo 7 [] (0, [3]) 3
    (by rfl) (by rfl)

/-! ## Claim C9 -/

/-- Claim C9: with an existing pending publish, `enqueue` fails exactly when
the entry targets a package other than the pending batch's package, or the
entry is `Init` and the batch already initializes the package; otherwise
the entry is appended to the pending batch's entries and the batch is
stored back.  `PublishStartCommand` fails exactly when a pending publish
already exists, so at most one pending publish exists at a time. -/
theorem c9_enqueue_pending :
    (∀ (info : PublishInfo) (name : String) (entry : PublishEntry),
      (∃ e, enqueue (some info) name entry = .error e) ↔
        (info.package ≠ name ∨ (entry = .init ∧ info.initializing = true))) ∧
    (∀ (info : PublishInfo) (name : String) (entry : PublishEntry),
      info.package = name → ¬(entry = .init ∧ info.initializing = true) →
      enqueue (some info) name entry =
        .ok (none, some { info with entries := info.entries ++ [entry] })) ∧
    (∀ (stored : Option PublishInfo) (name : String),
      (∃ e, publish_start stored name = .error e) ↔ stored.isSome = true) ∧
    (∀ name : String,
      publish_start none name = .ok (some { package := name, head := none, entries := [] })) := by
  refine ⟨?_, ?_, ?_, ?_⟩
  · intro info name entry
    by_cases hpk : info.package = name
    · by_cases hb : (entry == PublishEntry.init && info.initializing) = true
      · have hr : entry = PublishEntry.init ∧ info.initializing = true := by
          simpa [Bool.and_eq_true, beq_iff_eq] using hb
        have he : enqueue (some info) name entry =
            .error "there is already a pending initializing for this package" := by
          simp [enqueue, hpk, hb]
        exact ⟨fun _ => Or.inr hr, fun _ => ⟨_, he⟩⟩
      · rw [Bool.not_eq_true] at hb
        have hr : ¬(entry = PublishEntry.init ∧ info.initializing = true) := by
          rintro ⟨h1, h2⟩
          rw [h1, h2] at hb
          simp at hb
        have he : enqueue (some info) name entry =
            .ok (none, some { info with entries := info.entries ++ [entry] }) := by
          simp [enqueue, hpk, hb]
        constructor
        · rintro ⟨e, hee⟩
          rw [he] at hee
          cases hee
        · rintro (h | h)
          · exact absurd hpk h
          · exact absurd h hr
    · have he : enqueue (some info) name entry =
          .error "there is already publish in progress for another package" := by
        simp [enqueue, hpk]
      exact ⟨fun _ => Or.inl hpk, fun _ => ⟨_, he⟩⟩
  · intro info name entry hpk hinit
    have hb : (entry == PublishEntry.init && info.initializing) = false := by
      by_contra hc
      rw [Bool.not_eq_false, Bool.and_eq_true, beq_iff_eq] at hc
      exact hinit hc
    simp [enqueue, hpk, hb]
  · intro stored name
    cases stored with
    | none =>
      constructor
      · rintro ⟨e, he⟩
        cases he
      · intro h
        cases h
    | some info =>
      exact ⟨fun _ => rfl, fun _ => ⟨"a publish is already in progress", rfl⟩⟩
  · intro name
    rfl

/-- Witness for C9: appending to an open batch succeeds; a second `Init`
into an initializing batch fails; a mismatched package fails; starting with
no pending publish stores an empty batch. -/
theorem c9_enqueue_pending_witness :
    enqueue (some ⟨"p", none, []⟩) "p" .init = .ok (none, some ⟨"p", none, [.init]⟩) ∧
    (∃ e, enqueue (some ⟨"p", none, [PublishEntry.init]⟩) "p" .init = .error e) ∧
    (∃ e, enqueue (some ⟨"p", none, []⟩) "q" .init = .error e) ∧
    publish_start none "p" = .ok (some ⟨"p", none, []⟩) := by
  refine ⟨?_, ?_, ?_, ?_⟩
  · exact (c9_enqueue_pending.2.1 ⟨"p", none, []⟩ "p" .init rfl (by simp [PublishInfo.initializing])).trans (by rfl)
  · exact (c9_enqueue_pending.1 ⟨"p", none, [PublishEntry.init]⟩ "p" .init).mpr
      (Or.inr ⟨rfl, by rfl⟩)
  · exact (c9_enqueue_pending.1 ⟨"p", none, []⟩ "q" .init).mpr
      (Or.inl (by simp))
  · exact c9_enqueue_pending.2.2.2 "p"


/-! ## Claim C5 -/

/-- With an empty missing set every flag is `false`. -/
theorem trueFlags_count_empty (ds : List AnyHash) :
    (trueFlags (∅ : Finset AnyHash) ds).count true = 0 := by
  induction ds with
  | nil => rfl
  | cons d ds ih =>
    simp only [trueFlags, Finset.erase_empty]
    simp [List.count_cons, ih]

/-- At most one call in a sequence reports that the missing set just became
empty. -/
theorem trueFlags_count_le_one (m : Finset AnyHash) (ds : List AnyHash) :
    (trueFlags m ds).count true ≤ 1 := by
  induction ds generalizing m with
  | nil => simp [trueFlags]
  | cons d ds ih =>
    by_cases hm : m = ∅
    · subst hm
      have h0 := trueFlags_count_empty (d :: ds)
      omega
    · by_cases he : m.erase d = ∅
      · simp only [trueFlags, hm, he, List.count_cons]
        have h0 := trueFlags_count_empty ds
        simp [h0]
      · simp only [trueFlags, List.count_cons]
        have hc := ih (m.erase d)
        simp [he, hc]
  
/-- A flag is `true` exactly when the corresponding call empties a
previously non-empty missing set. -/
theorem trueFlags_get_iff (ds : List AnyHash) :
    ∀ (m : Finset AnyHash) (k : Nat) (hk : k < (trueFlags m ds).length),
      (trueFlags m ds).get ⟨k, hk⟩ = true ↔
        (eraseAll m (ds.take (k + 1)) = ∅ ∧ eraseAll m (ds.take k) ≠ ∅) := by
  induction ds with
  | nil =>
    intro m k hk
    simp [trueFlags] at hk
  | cons d ds ih =>
    intro m k hk
    cases k with
    | zero =>
      simp only [trueFlags, List.get, List.take, eraseAll]
      constructor
      · intro h
        rw [Bool.and_eq_true, Bool.not_eq_true', decide_eq_false_iff_not,
          decide_eq_true_eq] at h
        exact ⟨h.2, h.1⟩
      · intro ⟨h1, h2⟩
        rw [Bool.and_eq_true, Bool.not_eq_true', decide_eq_false_iff_not,
          decide_eq_true_eq]
        exact ⟨h2, h1⟩
    | succ k =>
      have hk' : k < (trueFlags (m.erase d) ds).length := by
        simpa [trueFlags] using hk
      have hiff := ih (m.erase d) k hk'
      simpa [trueFlags, List.take_succ_cons, eraseAll] using hiff

/-- The booleans produced by a run of `set_content_present` calls on a
pending package record with missing set `m` are exactly `trueFlags m ds`. -/
theorem run_content_calls_flags (ds : List AnyHash) :
    ∀ (st : MState) (l r : Nat) (rec : Option Env) (m : Finset AnyHash),
      statusOf st l r = some (.pending (.package rec m)) →
      (run_content_calls st l r ds).1 = trueFlags m ds := by
  induction ds with
  | nil =>
    intro st l r rec m _
    rfl
  | cons d ds ih =>
    intro st l r rec m h
    obtain ⟨inner, hrec, hinner⟩ : ∃ inner, st.records l = some inner ∧
        inner r = some (.pending (.package rec m)) := by
      unfold statusOf at h
      cases hr : st.records l with
      | none => rw [hr] at h; cases h
      | some inner =>
        rw [hr] at h
        exact ⟨inner, rfl, by simpa using h⟩
    by_cases hm : m = ∅
    · subst hm
      have hcall : set_content_present st l r d = some (.ok false, st) := by
        simp [set_content_present, hrec, hinner]
      simp only [run_content_calls, hcall]
      rw [ih st l r rec ∅ h]
      simp [trueFlags, Finset.erase_empty]
    · have hcall : set_content_present st l r d = some (.ok (decide (m.erase d = ∅)), { st with records := upd st.records l (upd inner r (.pending (.package rec (m.erase d)))) }) := by
        simp [set_content_present, hrec, hinner, hm]
      have hstat : statusOf { st with records := upd st.records l (upd inner r (.pending (.package rec (m.erase d)))) } l r = some (.pending (.package rec (m.erase d))) := by
        have hs := statusOf_upd_shape st { st with records := upd st.records l (upd inner r (.pending (.package rec (m.erase d)))) } l r inner (.pending (.package rec (m.erase d))) (by rw [hrec]; rfl) rfl l r
        simpa using hs
      simp only [run_content_calls, hcall]
      rw [ih _ l r rec (m.erase d) hstat]
      simp [trueFlags, hm]

/-- Claim C5: for every pending package record, `set_content_present`
returns `true` exactly once over any sequence of calls — on the call after
which the missing set is empty for the first time; every other call returns
`false` (including calls on pending operator records and calls made after
the missing set is already empty), and a call on a record that is not
`Pending` fails with `RecordNotPending`. -/
theorem c5_content_present_once :
    (∀ (st : MState) (l r : Nat) (inner : RecordId → Option RecordStatus)
        (rec : Option Env) (m : Finset AnyHash) (d : AnyHash),
      st.records l = some inner →
      inner r = some (.pending (.package rec m)) →
      m ≠ ∅ →
      ∃ st', set_content_present st l r d = some (.ok (decide (m.erase d = ∅)), st') ∧
        st'.records = upd st.records l (upd inner r (.pending (.package rec (m.erase d)))) ∧
        statusOf st' l r = some (.pending (.package rec (m.erase d)))) ∧
    (∀ (st : MState) (l r : Nat) (inner : RecordId → Option RecordStatus)
        (rec : Option Env) (d : AnyHash),
      st.records l = some inner →
      inner r = some (.pending (.package rec (∅ : Finset AnyHash))) →
      set_content_present st l r d = some (.ok false, st)) ∧
    (∀ (st : MState) (l r : Nat) (inner : RecordId → Option RecordStatus)
        (rec : Option Env) (d : AnyHash),
      st.records l = some inner →
      inner r = some (.pending (.operator rec)) →
      set_content_present st l r d = some (.ok false, st)) ∧
    (∀ (st : MState) (l r : Nat) (inner : RecordId → Option RecordStatus)
        (s : RecordStatus) (d : AnyHash),
      st.records l = some inner →
      inner r = some s →
      s.isPend = false →
      set_content_present st l r d = some (.error (.recordNotPending r), st)) ∧
    (∀ (st : MState) (l r : Nat) (rec : Option Env) (m : Finset AnyHash)
        (ds : List AnyHash),
      statusOf st l r = some (.pending (.package rec m)) →
      (run_content_calls st l r ds).1 = trueFlags m ds ∧
      ((run_content_calls st l r ds).1.count true ≤ 1) ∧
      (∀ (k : Nat) (hk : k < (trueFlags m ds).length),
        (trueFlags m ds).get ⟨k, hk⟩ = true ↔
          (eraseAll m (ds.take (k + 1)) = ∅ ∧ eraseAll m (ds.take k) ≠ ∅))) := by
  refine ⟨?_, ?_, ?_, ?_, ?_⟩
  · intro st l r inner rec m d hrec hinner hm
    refine ⟨{ st with records := upd st.records l (upd inner r (.pending (.package rec (m.erase d)))) }, ?_, rfl, ?_⟩
    · simp [set_content_present, hrec, hinner, hm]
    · have hs := statusOf_upd_shape st { st with records := upd st.records l (upd inner r (.pending (.package rec (m.erase d)))) } l r inner (.pending (.package rec (m.erase d))) (by rw [hrec]; rfl) rfl l r
      simpa using hs
  · intro st l r inner rec d hrec hinner
    simp [set_content_present, hrec, hinner]
  · intro st l r inner rec d hrec hinner
    simp [set_content_present, hrec, hinner]
  · intro st l r inner s d hrec hinner hs
    cases s with
    | pending p => simp [RecordStatus.isPend] at hs
    | rejected rr => simp [set_content_present, hrec, hinner]
    | validated vr => simp [set_content_present, hrec, hinner]
  · intro st l r rec m ds h
    have hflags := run_content_calls_flags ds st l r rec m h
    refine ⟨hflags, ?_, ?_⟩
    · rw [hflags]
      exact trueFlags_count_le_one m ds
    · intro k hk
      exact trueFlags_get_iff ds m k hk

/-- Witness for C5: on the record missing digests 5 and 6, presenting
`[5, 6, 7]` yields flags `trueFlags {5, 6} [5, 6, 7] = [false, true, false]`
— `true` exactly on the call that empties the missing set — and a call on a
rejected record yields `RecordNotPending`. -/
theorem c5_content_present_once_witness :
    (∃ st', set_content_present exMissSt 0 1 5 = some (.ok (decide ((({5, 6} : Finset AnyHash)).erase 5 = ∅)), st') ∧
      st'.records = upd exMissSt.records 0 (upd exMissInner 1 (.pending (.package (some 9) (({5, 6} : Finset AnyHash).erase 5)))) ∧
      statusOf st' 0 1 = some (.pending (.package (some 9) (({5, 6} : Finset AnyHash).erase 5)))) ∧
    (run_content_calls exMissSt 0 1 [5, 6, 7]).1 = trueFlags {5, 6} [5, 6, 7] ∧
    trueFlags ({5, 6} : Finset AnyHash) [5, 6, 7] = [false, true, false] ∧
    set_content_present exRejSt 0 5 7 = some (.error (.recordNotPending 5), exRejSt) := by
  refine ⟨?_, ?_, ?_, ?_⟩
  · exact c5_content_present_once.1 exMissSt 0 1 exMissInner (some 9) {5, 6} 5
      (by rfl) (by rfl) (by decide)
  · exact (c5_content_present_once.2.2.2.2 exMissSt 0 1 (some 9) {5, 6} [5, 6, 7] (by rfl)).1
  · decide
  · exact c5_content_present_once.2.2.2.1 exRejSt 0 5 exRejInner
      (.rejected (.package 5 "bad")) 7 (by rfl) (by rfl) (by rfl)

/-! ## Claim C2: preservation machinery -/

/-- `push_checkpoint_index` never touches the record table. -/
theorem push_checkpoint_index_records (st st1 : MState) (l0 idx : Nat)
    (h : push_checkpoint_index st l0 idx = some st1) : st1.records = st.records := by
  unfold push_checkpoint_index at h
  cases h1 : st.operators l0 with
  | some log =>
    simp only [h1] at h
    cases h
    rfl
  | none =>
    cases h2 : st.packages l0 with
    | some log =>
      simp only [h1, h2] at h
      cases h
      rfl
    | none =>
      simp only [h1, h2] at h
      cases h

/-- `push_checkpoint_index` appends `idx` to exactly the target log's
`checkpoint_indices`. -/
theorem push_checkpoint_index_cindices (st st1 : MState) (l0 idx : Nat)
    (h : push_checkpoint_index st l0 idx = some st1) (l : Nat) :
    cindicesOf st1 l = if l = l0 then cindicesOf st l ++ [idx] else cindicesOf st l := by
  unfold push_checkpoint_index at h
  cases h1 : st.operators l0 with
  | some log =>
    simp only [h1] at h
    cases h
    by_cases hl : l = l0
    · subst hl
      simp [cindicesOf, upd_self, h1]
    · simp [cindicesOf, upd_ne _ _ _ _ hl, hl]
  | none =>
    cases h2 : st.packages l0 with
    | some log =>
      simp only [h1, h2] at h
      cases h
      by_cases hl : l = l0
      · subst hl
        simp [cindicesOf, upd_self, h1, h2]
      · simp [cindicesOf, upd_ne _ _ _ _ hl, hl]
    | none =>
      simp only [h1, h2] at h
      cases h

/-- `push_checkpoint_index` preserves the existence of every log. -/
theorem push_checkpoint_index_logs (st st1 : MState) (l0 idx : Nat)
    (h : push_checkpoint_index st l0 idx = some st1) (l : Nat)
    (hl : (st.operators l).isSome ∨ (st.packages l).isSome) :
    (st1.operators l).isSome ∨ (st1.packages l).isSome := by
  unfold push_checkpoint_index at h
  cases h1 : st.operators l0 with
  | some log =>
    simp only [h1] at h
    cases h
    by_cases heq : l = l0
    · subst heq
      left
      simp [upd_self]
    · simpa [upd_ne _ _ _ _ heq] using hl
  | none =>
    cases h2 : st.packages l0 with
    | some log =>
      simp only [h1, h2] at h
      cases h
      by_cases heq : l = l0
      · subst heq
        right
        simp [upd_self]
      · simpa [upd_ne _ _ _ _ heq] using hl
    | none =>
      simp only [h1, h2] at h
      cases h

/-- An operation that writes a single record cell whose prior value was
absent or `Pending` preserves every non-pending cell exactly. -/
theorem preserve_single_cell (st st' : MState) (l0 r0 : Nat)
    (inner : RecordId → Option RecordStatus) (v : RecordStatus)
    (hinner : (st.records l0).getD (fun _ => none) = inner)
    (hold : ∀ s0, inner r0 = some s0 → s0.isPend = true)
    (hst' : st'.records = upd st.records l0 (upd inner r0 v))
    (l r : Nat) (s : RecordStatus) (hs : statusOf st l r = some s)
    (hnp : s.isPend = false) : statusOf st' l r = some s := by
  rw [statusOf_upd_shape st st' l0 r0 inner v hinner hst' l r]
  by_cases hc : l = l0 ∧ r = r0
  · obtain ⟨hl, hr⟩ := hc
    subst hl
    subst hr
    have hcell : inner r = some s := by
      unfold statusOf at hs
      cases hq : st.records l with
      | none =>
        rw [hq] at hs
        cases hs
      | some i =>
        rw [hq] at hs
        simp only [Option.some_bind] at hs
        have hin : inner = i := by
          rw [← hinner, hq]
          rfl
        rw [hin]
        exact hs
    have := hold s hcell
    rw [hnp] at this
    cases this
  · simp only [hc, if_false]
    exact hs

/-- `store_operator_record` preserves every non-pending cell. -/
theorem preserve_store_operator (st st' : MState) (l0 r0 : Nat) (rec : Env)
    (res : Except DataStoreError Unit)
    (h : store_operator_record st l0 r0 rec = some (res, st'))
    (l r : Nat) (s : RecordStatus) (hs : statusOf st l r = some s)
    (hnp : s.isPend = false) : statusOf st' l r = some s := by
  unfold store_operator_record at h
  cases h0 : ((st.records l0).getD (fun _ => none)) r0 with
  | some x =>
    simp only [h0] at h
    cases h
  | none =>
    simp only [h0] at h
    cases h
    exact preserve_single_cell st _ l0 r0 ((st.records l0).getD (fun _ => none))
      (.pending (.operator (some rec))) rfl
      (fun s0 h0' => by rw [h0] at h0'; cases h0') rfl l r s hs hnp

/-- `store_package_record` preserves every non-pending cell. -/
theorem preserve_store_package (st st' : MState) (l0 r0 : Nat) (name : String)
    (rec : Env) (missing : Finset AnyHash) (res : Except DataStoreError Unit)
    (h : store_package_record st l0 name r0 rec missing = some (res, st'))
    (l r : Nat) (s : RecordStatus) (hs : statusOf st l r = some s)
    (hnp : s.isPend = false) : statusOf st' l r = some s := by
  unfold store_package_record at h
  cases h0 : ((st.records l0).getD (fun _ => none)) r0 with
  | some x =>
    simp only [h0] at h
    cases h
  | none =>
    simp only [h0] at h
    cases h
    exact preserve_single_cell st _ l0 r0 ((st.records l0).getD (fun _ => none))
      (.pending (.package (some rec) missing)) rfl
      (fun s0 h0' => by rw [h0] at h0'; cases h0') rfl l r s hs hnp

/-- `reject_operator_record` preserves every non-pending cell. -/
theorem preserve_reject_operator (st st' : MState) (l0 r0 : Nat) (reason : String)
    (res : Except DataStoreError Unit)
    (h : reject_operator_record st l0 r0 reason = some (res, st'))
    (l r : Nat) (s : RecordStatus) (hs : statusOf st l r = some s)
    (hnp : s.isPend = false) : statusOf st' l r = some s := by
  unfold reject_operator_record at h
  cases hq : st.records l0 with
  | none =>
    simp only [hq] at h
    cases h
    exact hs
  | some inner =>
    simp only [hq] at h
    cases hq2 : inner r0 with
    | none =>
      simp only [hq2] at h
      cases h
      exact hs
    | some s0 =>
      simp only [hq2] at h
      cases s0 with
      | pending p =>
        cases p with
        | operator rec0 =>
          cases rec0 with
          | none => cases h
          | some record =>
            cases h
            exact preserve_single_cell st _ l0 r0 inner
              (.rejected (.operator record reason)) (by rw [hq]; rfl)
              (fun s0 h0' => by rw [hq2] at h0'; cases h0'; rfl) rfl l r s hs hnp
        | package rec0 m =>
          cases h
          exact hs
      | rejected rr =>
        cases h
        exact hs
      | validated mr =>
        cases h
        exact hs

/-- `reject_package_record` preserves every non-pending cell. -/
theorem preserve_reject_package (st st' : MState) (l0 r0 : Nat) (reason : String)
    (res : Except DataStoreError Unit)
    (h : reject_package_record st l0 r0 reason = some (res, st'))
    (l r : Nat) (s : RecordStatus) (hs : statusOf st l r = some s)
    (hnp : s.isPend = false) : statusOf st' l r = some s := by
  unfold reject_package_record at h
  cases hq : st.records l0 with
  | none =>
    simp only [hq] at h
    cases h
    exact hs
  | some inner =>
    simp only [hq] at h
    cases hq2 : inner r0 with
    | none =>
      simp only [hq2] at h
      cases h
      exact hs
    | some s0 =>
      simp only [hq2] at h
      cases s0 with
      | pending p =>
        cases p with
        | operator rec0 =>
          cases h
          exact hs
        | package rec0 m =>
          cases rec0 with
          | none => cases h
          | some record =>
            cases h
            exact preserve_single_cell st _ l0 r0 inner
              (.rejected (.package record reason)) (by rw [hq]; rfl)
              (fun s0 h0' => by rw [hq2] at h0'; cases h0'; rfl) rfl l r s hs hnp
      | rejected rr =>
        cases h
        exact hs
      | validated mr =>
        cases h
        exact hs

/-- `validate_operator_record` preserves every non-pending cell. -/
theorem preserve_validate_operator (ov : OValidate) (st st' : MState) (l0 r0 : Nat)
    (res : Except DataStoreError Unit)
    (h : validate_operator_record ov st l0 r0 = some (res, st'))
    (l r : Nat) (s : RecordStatus) (hs : statusOf st l r = some s)
    (hnp : s.isPend = false) : statusOf st' l r = some s := by
  unfold validate_operator_record at h
  cases hq : st.records l0 with
  | none =>
    simp only [hq] at h
    cases h
    exact hs
  | some inner =>
    simp only [hq] at h
    cases hq2 : inner r0 with
    | none =>
      simp only [hq2] at h
      cases h
      exact hs
    | some s0 =>
      simp only [hq2] at h
      cases s0 with
      | pending p =>
        cases p with
        | operator rec0 =>
          cases rec0 with
          | none => cases h
          | some record =>
            cases hov : ov ((st.operators l0).getD defaultMLog).validator record with
            | ok v =>
              simp only [hov] at h
              cases h
              exact preserve_single_cell st _ l0 r0 inner
                (.validated ⟨((st.operators l0).getD defaultMLog).entries.length, none⟩)
                (by rw [hq]; rfl)
                (fun s0 h0' => by rw [hq2] at h0'; cases h0'; rfl) rfl l r s hs hnp
            | error e =>
              simp only [hov] at h
              cases h
              exact preserve_single_cell st _ l0 r0 inner
                (.rejected (.operator record e)) (by rw [hq]; rfl)
                (fun s0 h0' => by rw [hq2] at h0'; cases h0'; rfl) rfl l r s hs hnp
        | package rec0 m =>
          cases h
          exact hs
      | rejected rr =>
        cases h
        exact hs
      | validated mr =>
        cases h
        exact hs

/-- `validate_package_record` preserves every non-pending cell. -/
theorem preserve_validate_package (pv : PValidate) (st st' : MState) (l0 r0 : Nat)
    (res : Except DataStoreError Unit)
    (h : validate_package_record pv st l0 r0 = some (res, st'))
    (l r : Nat) (s : RecordStatus) (hs : statusOf st l r = some s)
    (hnp : s.isPend = false) : statusOf st' l r = some s := by
  unfold validate_package_record at h
  cases hq : st.records l0 with
  | none =>
    simp only [hq] at h
    cases h
    exact hs
  | some inner =>
    simp only [hq] at h
    cases hq2 : inner r0 with
    | none =>
      simp only [hq2] at h
      cases h
      exact hs
    | some s0 =>
      simp only [hq2] at h
      cases s0 with
      | pending p =>
        cases p with
        | operator rec0 =>
          cases h
          exact hs
        | package rec0 m =>
          cases rec0 with
          | none => cases h
          | some record =>
            cases hpv : pv ((st.packages l0).getD defaultMLog).validator record with
            | ok v =>
              simp only [hpv] at h
              cases h
              exact preserve_single_cell st _ l0 r0 inner
                (.validated ⟨((st.packages l0).getD defaultMLog).entries.length, none⟩)
                (by rw [hq]; rfl)
                (fun s0 h0' => by rw [hq2] at h0'; cases h0'; rfl) rfl l r s hs hnp
            | error e =>
              simp only [hpv] at h
              cases h
              exact preserve_single_cell st _ l0 r0 inner
                (.rejected (.package record e)) (by rw [hq]; rfl)
                (fun s0 h0' => by rw [hq2] at h0'; cases h0'; rfl) rfl l r s hs hnp
      | rejected rr =>
        cases h
        exact hs
      | validated mr =>
        cases h
        exact hs

/-- `set_content_present` preserves every non-pending cell. -/
theorem preserve_set_content (st st' : MState) (l0 r0 d : Nat)
    (res : Except DataStoreError Bool)
    (h : set_content_present st l0 r0 d = some (res, st'))
    (l r : Nat) (s : RecordStatus) (hs : statusOf st l r = some s)
    (hnp : s.isPend = false) : statusOf st' l r = some s := by
  cases hq : st.records l0 with
  | none =>
    simp only [set_content_present, hq] at h
    cases h
    exact hs
  | some inner =>
    cases hq2 : inner r0 with
    | none =>
      simp only [set_content_present, hq, hq2] at h
      cases h
      exact hs
    | some s0 =>
      cases s0 with
      | pending p =>
        cases p with
        | operator rec0 =>
          simp only [set_content_present, hq, hq2] at h
          cases h
          exact hs
        | package rec0 m =>
          by_cases hm : m = ∅
          · simp only [set_content_present, hq, hq2, if_pos hm] at h
            cases h
            exact hs
          · simp only [set_content_present, hq, hq2, if_neg hm] at h
            cases h
            exact preserve_single_cell st _ l0 r0 inner
              (.pending (.package rec0 (m.erase d))) (by rw [hq]; rfl)
              (fun s0 h0' => by rw [hq2] at h0'; cases h0'; rfl) rfl l r s hs hnp
      | rejected rr =>
        simp only [set_content_present, hq, hq2] at h
        cases h
        exact hs
      | validated mr =>
        simp only [set_content_present, hq, hq2] at h
        cases h
        exact hs

/-- The participant loop of `store_checkpoint` keeps every non-pending cell
non-pending and never changes a rejected cell (a leaf whose record is not
`Validated` panics instead). -/
theorem store_checkpoint_leaves_preserve (idx : Nat) :
    ∀ (ps : List LogLeaf) (st st' : MState),
      store_checkpoint_leaves st idx ps = some st' →
      ∀ (l r : Nat) (s : RecordStatus), statusOf st l r = some s → s.isPend = false →
        ∃ s', statusOf st' l r = some s' ∧ s'.isPend = false ∧
          (∀ rr, s = .rejected rr → s' = s) := by
  intro ps
  induction ps with
  | nil =>
    intro st st' h l r s hs hnp
    cases h
    exact ⟨s, hs, hnp, fun _ _ => rfl⟩
  | cons leaf rest ih =>
    intro st st' h l r s hs hnp
    cases hpush : push_checkpoint_index st leaf.log_id idx with
    | none =>
      simp only [store_checkpoint_leaves, hpush] at h
      cases h
    | some st1 =>
      have hrec1 : st1.records = st.records :=
        push_checkpoint_index_records st st1 leaf.log_id idx hpush
      cases hq : st1.records leaf.log_id with
      | none =>
        simp only [store_checkpoint_leaves, hpush, hq] at h
        cases h
      | some inner =>
        cases hq2 : inner leaf.record_id with
        | none =>
          simp only [store_checkpoint_leaves, hpush, hq, hq2] at h
          cases h
        | some s0 =>
          cases s0 with
          | pending p =>
            simp only [store_checkpoint_leaves, hpush, hq, hq2] at h
            cases h
          | rejected rr =>
            simp only [store_checkpoint_leaves, hpush, hq, hq2] at h
            cases h
          | validated mr =>
            simp only [store_checkpoint_leaves, hpush, hq, hq2] at h
            have hs1 : statusOf st1 l r = some s := by
              unfold statusOf
              rw [hrec1]
              exact hs
            by_cases hc : l = leaf.log_id ∧ r = leaf.record_id
            · obtain ⟨hl, hr⟩ := hc
              subst hl
              subst hr
              have hsv : s = .validated mr := by
                unfold statusOf at hs1
                rw [hq] at hs1
                simp only [Option.some_bind] at hs1
                rw [hq2] at hs1
                exact (Option.some.inj hs1).symm
              have hs2 : statusOf { st1 with records := upd st1.records leaf.log_id (upd inner leaf.record_id (.validated ⟨mr.index, some idx⟩)) } leaf.log_id leaf.record_id = some (.validated ⟨mr.index, some idx⟩) := by
                have hsh := statusOf_upd_shape st1 { st1 with records := upd st1.records leaf.log_id (upd inner leaf.record_id (.validated ⟨mr.index, some idx⟩)) } leaf.log_id leaf.record_id inner (.validated ⟨mr.index, some idx⟩) (by rw [hq]; rfl) rfl leaf.log_id leaf.record_id
                simpa using hsh
              obtain ⟨s', h1, h2, _⟩ := ih _ st' h leaf.log_id leaf.record_id
                (.validated ⟨mr.index, some idx⟩) hs2 (by rfl)
              refine ⟨s', h1, h2, ?_⟩
              intro rr2 hrr
              rw [hsv] at hrr
              cases hrr
            · have hs2 : statusOf { st1 with records := upd st1.records leaf.log_id (upd inner leaf.record_id (.validated ⟨mr.index, some idx⟩)) } l r = some s := by
                rw [statusOf_upd_shape st1 _ leaf.log_id leaf.record_id inner
                  (.validated ⟨mr.index, some idx⟩) (by rw [hq]; rfl) rfl l r]
                simp only [hc, if_false]
                exact hs1
              exact ih _ st' h l r s hs2 hnp

/-- `store_checkpoint` keeps every non-pending cell non-pending and never
changes a rejected cell. -/
theorem store_checkpoint_preserve (st st' : MState) (cid : AnyHash) (cp : Checkpoint)
    (ps : List LogLeaf) (res : Except DataStoreError Unit)
    (h : store_checkpoint st cid cp ps = some (res, st'))
    (l r : Nat) (s : RecordStatus) (hs : statusOf st l r = some s)
    (hnp : s.isPend = false) :
    ∃ s', statusOf st' l r = some s' ∧ s'.isPend = false ∧
      (∀ rr, s = .rejected rr → s' = s) := by
  unfold store_checkpoint at h
  by_cases hdup : (st.checkpoints.findIdx? (fun kv => kv.1 == cid)).isSome
  · rw [if_pos hdup] at h
    cases h
  · rw [if_neg hdup] at h
    cases hl : store_checkpoint_leaves
        { st with checkpoints := st.checkpoints ++ [(cid, cp)] }
        st.checkpoints.length ps with
    | none =>
      simp only [hl] at h
      cases h
    | some st2 =>
      simp only [hl] at h
      cases h
      exact store_checkpoint_leaves_preserve st.checkpoints.length ps _ _ hl l r s hs hnp

/-- Claim C2: for every record, the status leaves `Pending` at most once and
never re-enters `Pending` (any data-store operation maps a non-pending cell
to a non-pending cell), once the status is `Rejected` no operation changes
it, and `reject_operator_record`, `reject_package_record`,
`validate_operator_record` and `validate_package_record` invoked on a
record whose status is not `Pending` fail with `RecordNotPending` and leave
the status unchanged. -/
theorem c2_pending_monotone :
    (∀ (ov : OValidate) (pv : PValidate) (st : MState) (l r : Nat)
        (inner : RecordId → Option RecordStatus) (s : RecordStatus) (reason : String),
      st.records l = some inner → inner r = some s → s.isPend = false →
      reject_operator_record st l r reason = some (.error (.recordNotPending r), st) ∧
      reject_package_record st l r reason = some (.error (.recordNotPending r), st) ∧
      validate_operator_record ov st l r = some (.error (.recordNotPending r), st) ∧
      validate_package_record pv st l r = some (.error (.recordNotPending r), st)) ∧
    (∀ (ov : OValidate) (pv : PValidate) (st : MState) (op : DSOp) (st' : MState)
        (l r : Nat) (s : RecordStatus),
      statusOf st l r = some s → s.isPend = false →
      DSOp.post ov pv st op = some st' →
      ∃ s', statusOf st' l r = some s' ∧ s'.isPend = false ∧
        (∀ rr, s = .rejected rr → s' = s)) := by
  constructor
  · intro ov pv st l r inner s reason hq hq2 hnp
    cases s with
    | pending p =>
      simp [RecordStatus.isPend] at hnp
    | rejected rr =>
      refine ⟨?_, ?_, ?_, ?_⟩
      · simp only [reject_operator_record, hq, hq2]
      · simp only [reject_package_record, hq, hq2]
      · simp only [validate_operator_record, hq, hq2]
      · simp only [validate_package_record, hq, hq2]
    | validated mr =>
      refine ⟨?_, ?_, ?_, ?_⟩
      · simp only [reject_operator_record, hq, hq2]
      · simp only [reject_package_record, hq, hq2]
      · simp only [validate_operator_record, hq, hq2]
      · simp only [validate_package_record, hq, hq2]
  · intro ov pv st op st' l r s hs hnp hpost
    cases op with
    | storeOperator l0 r0 rec =>
      obtain ⟨⟨res, st2⟩, hcall, hst2⟩ := Option.map_eq_some'.mp hpost
      cases hst2
      exact ⟨s, preserve_store_operator st st2 l0 r0 rec res hcall l r s hs hnp, hnp,
        fun _ _ => rfl⟩
    | rejectOperator l0 r0 reason =>
      obtain ⟨⟨res, st2⟩, hcall, hst2⟩ := Option.map_eq_some'.mp hpost
      cases hst2
      exact ⟨s, preserve_reject_operator st st2 l0 r0 reason res hcall l r s hs hnp, hnp,
        fun _ _ => rfl⟩
    | validateOperator l0 r0 =>
      obtain ⟨⟨res, st2⟩, hcall, hst2⟩ := Option.map_eq_some'.mp hpost
      cases hst2
      exact ⟨s, preserve_validate_operator ov st st2 l0 r0 res hcall l r s hs hnp, hnp,
        fun _ _ => rfl⟩
    | storePackage l0 name r0 rec missing =>
      obtain ⟨⟨res, st2⟩, hcall, hst2⟩ := Option.map_eq_some'.mp hpost
      cases hst2
      exact ⟨s, preserve_store_package st st2 l0 r0 name rec missing res hcall l r s hs hnp,
        hnp, fun _ _ => rfl⟩
    | rejectPackage l0 r0 reason =>
      obtain ⟨⟨res, st2⟩, hcall, hst2⟩ := Option.map_eq_some'.mp hpost
      cases hst2
      exact ⟨s, preserve_reject_package st st2 l0 r0 reason res hcall l r s hs hnp, hnp,
        fun _ _ => rfl⟩
    | validatePackage l0 r0 =>
      obtain ⟨⟨res, st2⟩, hcall, hst2⟩ := Option.map_eq_some'.mp hpost
      cases hst2
      exact ⟨s, preserve_validate_package pv st st2 l0 r0 res hcall l r s hs hnp, hnp,
        fun _ _ => rfl⟩
    | setContent l0 r0 d =>
      obtain ⟨⟨res, st2⟩, hcall, hst2⟩ := Option.map_eq_some'.mp hpost
      cases hst2
      exact ⟨s, preserve_set_content st st2 l0 r0 d res hcall l r s hs hnp, hnp,
        fun _ _ => rfl⟩
    | storeCp cid cp ps =>
      obtain ⟨⟨res, st2⟩, hcall, hst2⟩ := Option.map_eq_some'.mp hpost
      cases hst2
      exact store_checkpoint_preserve st st2 cid cp ps res hcall l r s hs hnp

/-- Witness for C2: on the rejected record 5 of `exRejSt`, the four
lifecycle operations fail with `RecordNotPending` leaving the state
untouched, and a `set_content_present` call (as a data-store operation)
keeps the rejected status unchanged. -/
theorem c2_pending_monotone_witness :
    (reject_operator_record exRejSt 0 5 "x" = some (.error (.recordNotPending 5), exRejSt) ∧
      reject_package_record exRejSt 0 5 "x" = some (.error (.recordNotPending 5), exRejSt) ∧
      validate_operator_record ovOkEx exRejSt 0 5 = some (.error (.recordNotPending 5), exRejSt) ∧
      validate_package_record pvOkEx exRejSt 0 5 = some (.error (.recordNotPending 5), exRejSt)) ∧
    (∃ s', statusOf exRejSt 0 5 = some s' ∧ s'.isPend = false ∧
      (∀ rr, RecordStatus.rejected (.package 5 "bad") = RecordStatus.rejected rr →
        s' = RecordStatus.rejected (.package 5 "bad"))) := by
  constructor
  · exact c2_pending_monotone.1 ovOkEx pvOkEx exRejSt 0 5 exRejInner
      (.rejected (.package 5 "bad")) "x" (by rfl) (by rfl) (by rfl)
  · exact c2_pending_monotone.2 ovOkEx pvOkEx exRejSt (.setContent 0 5 7) exRejSt 0 5
      (.rejected (.package 5 "bad")) (by rfl) (by rfl) (by rfl)

/-! ## Claim C4 -/

/-- The participant loop of `store_checkpoint`, run on leaves whose logs
exist and whose records are `Validated`, succeeds; afterwards every
participant's record carries `checkpoint_index = some idx`, every log's
`checkpoint_indices` gains `idx` once per participant leaf (in the listed
order), and cells already carrying `some idx` are preserved. -/
theorem store_checkpoint_leaves_spec (idx : Nat) :
    ∀ (ps : List LogLeaf) (st : MState),
      (∀ leaf ∈ ps, (st.operators leaf.log_id).isSome ∨ (st.packages leaf.log_id).isSome) →
      (∀ leaf ∈ ps, ∃ mr, statusOf st leaf.log_id leaf.record_id = some (.validated mr)) →
      ∃ st', store_checkpoint_leaves st idx ps = some st' ∧
        (∀ l r i, statusOf st l r = some (.validated ⟨i, some idx⟩) →
          statusOf st' l r = some (.validated ⟨i, some idx⟩)) ∧
        (∀ leaf ∈ ps, ∃ i, statusOf st' leaf.log_id leaf.record_id =
          some (.validated ⟨i, some idx⟩)) ∧
        (∀ l, cindicesOf st' l =
          cindicesOf st l ++ List.replicate (ps.countP (fun x => x.log_id == l)) idx) := by
  intro ps
  induction ps with
  | nil =>
    intro st _ _
    refine ⟨st, rfl, fun l r i h => h, ?_, ?_⟩
    · intro leaf hleaf
      cases hleaf
    · intro l
      simp
  | cons leaf rest ih =>
    intro st hlog hrec
    obtain hl := hlog leaf (List.mem_cons_self _ _)
    obtain ⟨mr, hmr⟩ := hrec leaf (List.mem_cons_self _ _)
    obtain ⟨st1, hpush⟩ : ∃ st1, push_checkpoint_index st leaf.log_id idx = some st1 := by
      cases h1 : st.operators leaf.log_id with
      | some log =>
        refine ⟨{ st with operators := upd st.operators leaf.log_id { log with checkpoint_indices := log.checkpoint_indices ++ [idx] } }, ?_⟩
        simp [push_checkpoint_index, h1]
      | none =>
        cases h2 : st.packages leaf.log_id with
        | some log =>
          refine ⟨{ st with packages := upd st.packages leaf.log_id { log with checkpoint_indices := log.checkpoint_indices ++ [idx] } }, ?_⟩
          simp [push_checkpoint_index, h1, h2]
        | none =>
          rcases hl with h | h
          · rw [h1] at h
            simp at h
          · rw [h2] at h
            simp at h
    have hrec1 : st1.records = st.records :=
      push_checkpoint_index_records st st1 leaf.log_id idx hpush
    have hstat1 : ∀ x y, statusOf st1 x y = statusOf st x y := by
      intro x y
      unfold statusOf
      rw [hrec1]
    obtain ⟨inner, hq, hq2⟩ : ∃ inner, st1.records leaf.log_id = some inner ∧
        inner leaf.record_id = some (.validated mr) := by
      have hm := hmr
      rw [← hstat1] at hm
      unfold statusOf at hm
      cases hqq : st1.records leaf.log_id with
      | none =>
        rw [hqq] at hm
        cases hm
      | some inner =>
        rw [hqq] at hm
        exact ⟨inner, rfl, by simpa using hm⟩
    have hstep : store_checkpoint_leaves st idx (leaf :: rest) =
        store_checkpoint_leaves { st1 with records := upd st1.records leaf.log_id (upd inner leaf.record_id (.validated ⟨mr.index, some idx⟩)) } idx rest := by
      simp only [store_checkpoint_leaves, hpush, hq, hq2]
    have hshape : ∀ l r, statusOf { st1 with records := upd st1.records leaf.log_id (upd inner leaf.record_id (.validated ⟨mr.index, some idx⟩)) } l r = if l = leaf.log_id ∧ r = leaf.record_id then some (.validated ⟨mr.index, some idx⟩) else statusOf st l r := by
      intro l r
      rw [statusOf_upd_shape st1 { st1 with records := upd st1.records leaf.log_id (upd inner leaf.record_id (.validated ⟨mr.index, some idx⟩)) } leaf.log_id leaf.record_id inner (.validated ⟨mr.index, some idx⟩) (by rw [hq]; rfl) rfl l r]
      by_cases hc : l = leaf.log_id ∧ r = leaf.record_id
      · simp [hc]
      · simp [hc, hstat1]
    have hlog2 : ∀ leaf' ∈ rest,
        (({ st1 with records := upd st1.records leaf.log_id (upd inner leaf.record_id (.validated ⟨mr.index, some idx⟩)) } : MState).operators leaf'.log_id).isSome ∨
        (({ st1 with records := upd st1.records leaf.log_id (upd inner leaf.record_id (.validated ⟨mr.index, some idx⟩)) } : MState).packages leaf'.log_id).isSome := by
      intro leaf' hmem
      exact push_checkpoint_index_logs st st1 leaf.log_id idx hpush leaf'.log_id
        (hlog leaf' (List.mem_cons_of_mem _ hmem))
    have hrec2 : ∀ leaf' ∈ rest, ∃ mr',
        statusOf { st1 with records := upd st1.records leaf.log_id (upd inner leaf.record_id (.validated ⟨mr.index, some idx⟩)) } leaf'.log_id leaf'.record_id = some (.validated mr') := by
      intro leaf' hmem
      obtain ⟨mr', hmr'⟩ := hrec leaf' (List.mem_cons_of_mem _ hmem)
      rw [hshape]
      by_cases hc : leaf'.log_id = leaf.log_id ∧ leaf'.record_id = leaf.record_id
      · exact ⟨⟨mr.index, some idx⟩, by simp [hc]⟩
      · refine ⟨mr', ?_⟩
        rw [if_neg hc]
        exact hmr'
    obtain ⟨st', hrun, hpres, hleaves, hcind⟩ := ih _ hlog2 hrec2
    refine ⟨st', by rw [hstep]; exact hrun, ?_, ?_, ?_⟩
    · intro l r i h
      apply hpres
      rw [hshape]
      by_cases hc : l = leaf.log_id ∧ r = leaf.record_id
      · obtain ⟨he1, he2⟩ := hc
        subst he1
        subst he2
        have hmeq : mr = (⟨i, some idx⟩ : MRecord) := by
          have hji := hmr.symm.trans h
          have := Option.some.inj hji
          cases this
          rfl
        rw [if_pos ⟨rfl, rfl⟩, hmeq]
      · rw [if_neg hc]
        exact h
    · intro leaf' hmem
      rcases List.mem_cons.mp hmem with heq | hmem'
      · subst heq
        refine ⟨mr.index, ?_⟩
        apply hpres
        rw [hshape]
        simp
      · exact hleaves leaf' hmem'
    · intro l
      rw [hcind l]
      have hc2 : cindicesOf { st1 with records := upd st1.records leaf.log_id (upd inner leaf.record_id (.validated ⟨mr.index, some idx⟩)) } l = cindicesOf st1 l := rfl
      rw [hc2, push_checkpoint_index_cindices st st1 leaf.log_id idx hpush l]
      by_cases hl2 : l = leaf.log_id
      · rw [if_pos hl2, List.countP_cons]
        have hpl : (leaf.log_id == l) = true := by
          rw [hl2, beq_self_eq_true]
        simp only [hpl, if_true]
        rw [List.append_assoc]
        simp [List.replicate_succ]
      · rw [if_neg hl2, List.countP_cons]
        have hpl : (leaf.log_id == l) = false := by
          rw [beq_eq_false_iff_ne]
          intro hcontra
          exact hl2 hcontra.symm
        simp [hpl]

/-- Appending copies of an upper bound keeps a list sorted. -/
theorem sorted_append_replicate (xs : List Nat) (n a : Nat)
    (hs : List.Sorted (· ≤ ·) xs) (hb : ∀ x ∈ xs, x ≤ a) :
    List.Sorted (· ≤ ·) (xs ++ List.replicate n a) := by
  rw [List.Sorted, List.pairwise_append]
  refine ⟨hs, ?_, ?_⟩
  · induction n with
    | zero => simp
    | succ k ihn =>
      rw [List.replicate_succ, List.pairwise_cons]
      refine ⟨?_, ihn⟩
      intro b hb2
      rw [List.eq_of_mem_replicate hb2]
  · intro x hx y hy
    rw [List.eq_of_mem_replicate hy]
    exact hb x hx

/-- The leaf loop of the core's `NewCheckpoint` handler, run on leaves whose
package states and records exist, succeeds; afterwards every participant's
record state is `Published` under the checkpoint and every package's
`checkpoint_indices` gains the checkpoint position once per leaf, in the
listed order. -/
theorem new_checkpoint_leaves_spec (cp : Checkpoint) (cidx : Nat) :
    ∀ (ps : List LogLeaf) (st : CoreState),
      (∀ leaf ∈ ps, ∃ info, st.package_states leaf.log_id = some info ∧
        (info.records leaf.record_id).isSome) →
      ∃ st', new_checkpoint_leaves st cp cidx ps = some st' ∧
        st'.checkpoints = st.checkpoints ∧
        (∀ l r info ri, st.package_states l = some info → info.records r = some ri →
          ri.state = .published cp →
          ∃ info' ri', st'.package_states l = some info' ∧
            info'.records r = some ri' ∧ ri'.state = .published cp) ∧
        (∀ leaf ∈ ps, ∃ info ri, st'.package_states leaf.log_id = some info ∧
          info.records leaf.record_id = some ri ∧ ri.state = .published cp) ∧
        (∀ l, coreCindicesOf st' l =
          coreCindicesOf st l ++ List.replicate (ps.countP (fun x => x.log_id == l)) cidx) := by
  intro ps
  induction ps with
  | nil =>
    intro st _
    refine ⟨st, rfl, rfl, ?_, ?_, ?_⟩
    · intro l r info ri h1 h2 h3
      exact ⟨info, ri, h1, h2, h3⟩
    · intro leaf hleaf
      cases hleaf
    · intro l
      simp
  | cons leaf rest ih =>
    intro st hps
    obtain ⟨info, hinfo, hri⟩ := hps leaf (List.mem_cons_self _ _)
    obtain ⟨ri, hri2⟩ := Option.isSome_iff_exists.mp hri
    have hmark : mark_published info leaf.record_id cp cidx =
        some { info with records := upd info.records leaf.record_id { ri with state := .published cp }, checkpoint_indices := info.checkpoint_indices ++ [cidx] } := by
      simp only [mark_published, hri2]
    have hstep : new_checkpoint_leaves st cp cidx (leaf :: rest) =
        new_checkpoint_leaves { st with package_states := upd st.package_states leaf.log_id { info with records := upd info.records leaf.record_id { ri with state := .published cp }, checkpoint_indices := info.checkpoint_indices ++ [cidx] } } cp cidx rest := by
      simp only [new_checkpoint_leaves, hinfo, hmark]
    have hps2 : ∀ leaf' ∈ rest,
        ∃ info2, (({ st with package_states := upd st.package_states leaf.log_id { info with records := upd info.records leaf.record_id { ri with state := .published cp }, checkpoint_indices := info.checkpoint_indices ++ [cidx] } } : CoreState).package_states leaf'.log_id) = some info2 ∧
          (info2.records leaf'.record_id).isSome := by
      intro leaf' hmem
      obtain ⟨info2, hinfo2, hri3⟩ := hps leaf' (List.mem_cons_of_mem _ hmem)
      by_cases hc : leaf'.log_id = leaf.log_id
      · have hinfoeq : info2 = info := by
          rw [hc] at hinfo2
          rw [hinfo2] at hinfo
          exact Option.some.inj hinfo
        refine ⟨{ info with records := upd info.records leaf.record_id { ri with state := .published cp }, checkpoint_indices := info.checkpoint_indices ++ [cidx] }, ?_, ?_⟩
        · show upd st.package_states leaf.log_id _ leaf'.log_id = _
          rw [hc, upd_self]
        · by_cases hr : leaf'.record_id = leaf.record_id
          · show ((upd info.records leaf.record_id _) leaf'.record_id).isSome
            rw [hr, upd_self]
            rfl
          · show ((upd info.records leaf.record_id _) leaf'.record_id).isSome
            rw [upd_ne _ _ _ _ hr]
            rw [← hinfoeq]
            exact hri3
      · refine ⟨info2, ?_, hri3⟩
        show upd st.package_states leaf.log_id _ leaf'.log_id = _
        rw [upd_ne _ _ _ _ hc]
        exact hinfo2
    obtain ⟨st', hrun, hcp', hpub, hleaves, hcind⟩ := ih _ hps2
    have hpub2 : ∀ l r info2 ri2,
        (({ st with package_states := upd st.package_states leaf.log_id { info with records := upd info.records leaf.record_id { ri with state := .published cp }, checkpoint_indices := info.checkpoint_indices ++ [cidx] } } : CoreState).package_states l) = some info2 →
        info2.records r = some ri2 → ri2.state = .published cp →
        ∃ info' ri', st'.package_states l = some info' ∧ info'.records r = some ri' ∧
          ri'.state = .published cp := hpub
    refine ⟨st', by rw [hstep]; exact hrun, hcp', ?_, ?_, ?_⟩
    · -- published cells of st are published cells of the intermediate state
      intro l r info2 ri2 h1 h2 h3
      by_cases hc : l = leaf.log_id
      · have hinfoeq : info2 = info := by
          rw [hc] at h1
          rw [h1] at hinfo
          exact Option.some.inj hinfo
        by_cases hr : r = leaf.record_id
        · refine hpub2 l r
            { info with records := upd info.records leaf.record_id { ri with state := .published cp }, checkpoint_indices := info.checkpoint_indices ++ [cidx] }
            { ri with state := .published cp } ?_ ?_ rfl
          · show upd st.package_states leaf.log_id _ l = _
            rw [hc, upd_self]
          · show (upd info.records leaf.record_id _) r = _
            rw [hr, upd_self]
        · refine hpub2 l r
            { info with records := upd info.records leaf.record_id { ri with state := .published cp }, checkpoint_indices := info.checkpoint_indices ++ [cidx] }
            ri2 ?_ ?_ h3
          · show upd st.package_states leaf.log_id _ l = _
            rw [hc, upd_self]
          · show (upd info.records leaf.record_id _) r = _
            rw [upd_ne _ _ _ _ hr, ← hinfoeq]
            exact h2
      · refine hpub2 l r info2 ri2 ?_ h2 h3
        show upd st.package_states leaf.log_id _ l = _
        rw [upd_ne _ _ _ _ hc]
        exact h1
    · intro leaf' hmem
      rcases List.mem_cons.mp hmem with heq | hmem'
      · subst heq
        refine hpub2 leaf'.log_id leaf'.record_id
          { info with records := upd info.records leaf'.record_id { ri with state := .published cp }, checkpoint_indices := info.checkpoint_indices ++ [cidx] }
          { ri with state := .published cp } ?_ ?_ rfl
        · show upd st.package_states leaf'.log_id _ leaf'.log_id = _
          rw [upd_self]
        · show (upd info.records leaf'.record_id _) leaf'.record_id = _
          rw [upd_self]
      · exact hleaves leaf' hmem'
    · intro l
      rw [hcind l]
      have hcore : coreCindicesOf { st with package_states := upd st.package_states leaf.log_id { info with records := upd info.records leaf.record_id { ri with state := .published cp }, checkpoint_indices := info.checkpoint_indices ++ [cidx] } } l = if l = leaf.log_id then coreCindicesOf st l ++ [cidx] else coreCindicesOf st l := by
        by_cases hc : l = leaf.log_id
        · rw [if_pos hc]
          subst hc
          simp [coreCindicesOf, upd_self, hinfo]
        · rw [if_neg hc]
          simp [coreCindicesOf, upd_ne _ _ _ _ hc]
      rw [hcore]
      by_cases hl2 : l = leaf.log_id
      · rw [if_pos hl2, List.countP_cons]
        have hpl : (leaf.log_id == l) = true := by
          rw [hl2, beq_self_eq_true]
        simp only [hpl, if_true]
        rw [List.append_assoc]
        simp [List.replicate_succ]
      · rw [if_neg hl2, List.countP_cons]
        have hpl : (leaf.log_id == l) = false := by
          rw [beq_eq_false_iff_ne]
          intro hcontra
          exact hl2 hcontra.symm
        simp [hpl]

/-- Claim C4: after `store_checkpoint(checkpoint_id, checkpoint,
participants)` succeeds (and correspondingly after the core processes
`NewCheckpoint{checkpoint, leaves}`), every participant's record has its
`checkpoint_index` set to the new checkpoint's position in the checkpoint
sequence, and each participant log's `checkpoint_indices` list gains that
position once per participant leaf, applied in the participants' listed
order, so every log's `checkpoint_indices` stays monotonically
non-decreasing. -/
theorem c4_checkpoint_application :
    (∀ (st : MState) (cid : AnyHash) (cp : Checkpoint) (ps : List LogLeaf),
      st.checkpoints.findIdx? (fun kv => kv.1 == cid) = none →
      (∀ leaf ∈ ps, (st.operators leaf.log_id).isSome ∨ (st.packages leaf.log_id).isSome) →
      (∀ leaf ∈ ps, ∃ mr, statusOf st leaf.log_id leaf.record_id = some (.validated mr)) →
      ∃ st', store_checkpoint st cid cp ps = some (.ok (), st') ∧
        (∀ leaf ∈ ps, ∃ i, statusOf st' leaf.log_id leaf.record_id =
          some (.validated ⟨i, some st.checkpoints.length⟩)) ∧
        (∀ l, cindicesOf st' l = cindicesOf st l ++
          List.replicate (ps.countP (fun x => x.log_id == l)) st.checkpoints.length) ∧
        (∀ l, List.Sorted (· ≤ ·) (cindicesOf st l) →
          (∀ x ∈ cindicesOf st l, x ≤ st.checkpoints.length) →
          List.Sorted (· ≤ ·) (cindicesOf st' l))) ∧
    (∀ (hashOf : Checkpoint → AnyHash) (st : CoreState) (cp : Checkpoint)
        (leaves : List LogLeaf),
      (∀ leaf ∈ leaves, ∃ info, st.package_states leaf.log_id = some info ∧
        (info.records leaf.record_id).isSome) →
      ∃ st', new_checkpoint hashOf st cp leaves = some st' ∧
        st'.checkpoints = st.checkpoints ++ [cp] ∧
        (∀ leaf ∈ leaves, ∃ info ri, st'.package_states leaf.log_id = some info ∧
          info.records leaf.record_id = some ri ∧ ri.state = .published cp) ∧
        (∀ l, coreCindicesOf st' l = coreCindicesOf st l ++
          List.replicate (leaves.countP (fun x => x.log_id == l)) st.checkpoints.length) ∧
        (∀ l, List.Sorted (· ≤ ·) (coreCindicesOf st l) →
          (∀ x ∈ coreCindicesOf st l, x ≤ st.checkpoints.length) →
          List.Sorted (· ≤ ·) (coreCindicesOf st' l))) := by
  constructor
  · intro st cid cp ps hfresh hlog hrec
    have hfresh' : ¬(st.checkpoints.findIdx? (fun kv => kv.1 == cid)).isSome = true := by
      rw [hfresh]
      simp
    obtain ⟨st', hrun, hpres, hleaves, hcind⟩ :=
      store_checkpoint_leaves_spec st.checkpoints.length ps
        { st with checkpoints := st.checkpoints ++ [(cid, cp)] } hlog hrec
    refine ⟨st', ?_, hleaves, hcind, ?_⟩
    · simp [store_checkpoint, hfresh, hrun]
    · intro l hsorted hbound
      rw [hcind l]
      exact sorted_append_replicate _ _ _ hsorted hbound
  · intro hashOf st cp leaves hps
    obtain ⟨st', hrun, hcp', _, hleaves, hcind⟩ :=
      new_checkpoint_leaves_spec cp st.checkpoints.length leaves
        { st with checkpoints := st.checkpoints ++ [cp],
                  checkpoint_index := upd st.checkpoint_index (hashOf cp) st.checkpoints.length }
        hps
    refine ⟨st', hrun, ?_, hleaves, hcind, ?_⟩
    · rw [hcp']
    · intro l hsorted hbound
      rw [hcind l]
      exact sorted_append_replicate _ _ _ hsorted hbound

/-- Witness for C4: storing checkpoint id 10 over the two validated records
of `exCkSt` publishes both at position 0 and pushes `[0, 0]` onto the log's
`checkpoint_indices` (keeping it sorted), and the core's `NewCheckpoint`
does the same on `exCoreCkSt`. -/
theorem c4_checkpoint_application_witness :
    (∃ st', store_checkpoint exCkSt 10 100 [⟨0, 1⟩, ⟨0, 2⟩] = some (.ok (), st') ∧
      (∀ leaf ∈ [(⟨0, 1⟩ : LogLeaf), ⟨0, 2⟩], ∃ i,
        statusOf st' leaf.log_id leaf.record_id =
          some (.validated ⟨i, some exCkSt.checkpoints.length⟩)) ∧
      (∀ l, cindicesOf st' l = cindicesOf exCkSt l ++
        List.replicate (([(⟨0, 1⟩ : LogLeaf), ⟨0, 2⟩]).countP (fun x => x.log_id == l))
          exCkSt.checkpoints.length) ∧
      (∀ l, List.Sorted (· ≤ ·) (cindicesOf exCkSt l) →
        (∀ x ∈ cindicesOf exCkSt l, x ≤ exCkSt.checkpoints.length) →
        List.Sorted (· ≤ ·) (cindicesOf st' l))) ∧
    (∃ st', new_checkpoint (fun c => c) exCoreCkSt 100 [⟨0, 1⟩, ⟨0, 2⟩] = some st' ∧
      st'.checkpoints = exCoreCkSt.checkpoints ++ [100] ∧
      (∀ leaf ∈ [(⟨0, 1⟩ : LogLeaf), ⟨0, 2⟩], ∃ info ri,
        st'.package_states leaf.log_id = some info ∧
        info.records leaf.record_id = some ri ∧ ri.state = .published 100)) := by
  constructor
  · refine c4_checkpoint_application.1 exCkSt 10 100 [⟨0, 1⟩, ⟨0, 2⟩] (by rfl) (by decide) ?_
    intro leaf hmem
    rcases List.mem_cons.mp hmem with heq | hmem'
    · subst heq
      exact ⟨⟨0, none⟩, by rfl⟩
    · rcases List.mem_cons.mp hmem' with heq | hmem''
      · subst heq
        exact ⟨⟨1, none⟩, by rfl⟩
      · cases hmem''
  · have hps : ∀ leaf ∈ [(⟨0, 1⟩ : LogLeaf), ⟨0, 2⟩], ∃ info,
        exCoreCkSt.package_states leaf.log_id = some info ∧
        (info.records leaf.record_id).isSome := by
      intro leaf hmem
      rcases List.mem_cons.mp hmem with heq | hmem'
      · subst heq
        exact ⟨exCoreCkInfo, rfl, by rfl⟩
      · rcases List.mem_cons.mp hmem' with heq | hmem''
        · subst heq
          exact ⟨exCoreCkInfo, rfl, by rfl⟩
        · cases hmem''
    obtain ⟨st', hrun, hcp', hleaves, _, _⟩ :=
      c4_checkpoint_application.2 (fun c => c) exCoreCkSt 100 [⟨0, 1⟩, ⟨0, 2⟩] hps
    exact ⟨st', hrun, hcp', hleaves⟩
